import Mathlib

/-!
Verification of the `pc` filesystem replication tool against its
natural-language specification.  The definitions below are shallow
embeddings of the C sources (`btree.c`, `digest.c`, `pc.c`): byte strings
are `List Nat`, machine integers are `Nat`/`Int`, syscalls are abstracted
into an oracle of results, and stateful code is explicit state passing.
-/

/-! ## Definitions -/

namespace PC

/-- Byte-string keys: the characters of a NUL-terminated C string, one
`Nat` per byte, terminator excluded. -/
abbrev Key := List Nat

/-- Shallow embedding of libc `strcmp` as used by the btree's default
comparator: lexicographic byte comparison, where the terminating NUL of
the shorter string compares below any byte.  Result is canonicalized to
-1/0/1 (the C callers only test the sign). -/
def strcmp : Key → Key → Int
  | [], [] => 0
  | [], _ :: _ => -1
  | _ :: _, [] => 1
  | a :: as, b :: bs =>
      if a < b then -1 else if b < a then 1 else strcmp as bs

/-- Strict key order induced by `strcmp`. -/
def keyLt (a b : Key) : Prop := strcmp a b = -1

instance (a b : Key) : Decidable (keyLt a b) := by
  unfold keyLt; infer_instance

/-!
## Ordered map (`btree.c`)

`BTREE` is an unbalanced binary search tree with string keys.  All maps in
`pc.c` are created with `btree_create(NULL, ...)`, i.e. the default
comparator `strcmp`; the embedding hardwires it.
-/

/-- One `BNODE` of `btree.c`: key, value, left and right subtrees (the
`parent` pointer is representation-only and carries no information). -/

inductive BTree (α : Type) where
  | leaf : BTree α
  | node (l : BTree α) (key : Key) (val : α) (r : BTree α) : BTree α
  deriving Repr, DecidableEq

namespace BTree

/-- `bnode_search` of `btree.c`: walk left on `strcmp < 0`, right on
`strcmp > 0`, return the value on a match.  `btree_search`'s out-parameter
and `ENOENT` are rendered as `Option`. -/
def bnode_search : BTree α → Key → Option α
  | .leaf, _ => none
  | .node l k v r, key =>
      let rc := strcmp key k
      if rc < 0 then bnode_search l key
      else if rc > 0 then bnode_search r key
      else some v

/-- Core of `btree_insert`: the iterative descent of the C code rendered
recursively.  `none` is the `EEXIST` case (key already present); `some`
returns the tree with the new node attached at the null child on the side
the final comparison selects. -/
def bnode_insert : BTree α → Key → α → Option (BTree α)
  | .leaf, k, v => some (.node .leaf k v .leaf)
  | .node l key val r, k, v =>
      let rc := strcmp k key
      if rc < 0 then (bnode_insert l k v).map (fun l2 => .node l2 key val r)
      else if rc > 0 then (bnode_insert r k v).map (fun r2 => .node l key val r2)
      else none

/-- `btree_insert` of `btree.c`.  Returns the resulting tree, the return
code (0 ok, -1 with `EEXIST`), and the key/value pairs handed to
`bnode_destroy` — on the `EEXIST` path the C code disposes the rejected
key and value (calling the tree's value disposer) and leaves the tree
untouched. -/
def btree_insert (t : BTree α) (k : Key) (v : α) :
    BTree α × Int × List (Key × α) :=
  match bnode_insert t k v with
  | some t2 => (t2, 0, [])
  | none => (t, -1, [(k, v)])

/-- `bnode_walker` of `btree.c`: in-order traversal that stops at (and
returns) the first non-zero callback result. -/
def bnode_walker (f : Key → α → Int) : BTree α → Int
  | .leaf => 0
  | .node l k v r =>
      let rc := bnode_walker f l
      if rc ≠ 0 then rc
      else
        let rc2 := f k v
        if rc2 ≠ 0 then rc2
        else bnode_walker f r

/-- `btree_foreach` on a non-NULL `BTREE*` (a NULL head just returns 0,
which coincides with `bnode_walker` on `leaf`). -/
def btree_foreach (t : BTree α) (f : Key → α → Int) : Int :=
  bnode_walker f t

/-- `btree_foreach` on a possibly-NULL `BTREE*`: NULL yields -1 with
`EINVAL`. -/
def btree_foreach_opt (t : Option (BTree α)) (f : Key → α → Int) : Int :=
  match t with
  | none => -1
  | some t => btree_foreach t f

/-- In-order key/value listing of a tree (the visit order of
`bnode_walker`). -/
def inorder : BTree α → List (Key × α)
  | .leaf => []
  | .node l k v r => inorder l ++ (k, v) :: inorder r

/-- `bt->entries`: the number of stored pairs. -/
def btree_entries (t : BTree α) : Nat := (inorder t).length

/-- Lower-bound check for the BST invariant (`none` = unbounded). -/
def okLo (lo : Option Key) (k : Key) : Prop :=
  match lo with
  | none => True
  | some x => keyLt x k

/-- Upper-bound check for the BST invariant. -/
def okHi (k : Key) (hi : Option Key) : Prop :=
  match hi with
  | none => True
  | some y => keyLt k y

instance (lo : Option Key) (k : Key) : Decidable (okLo lo k) := by
  unfold okLo; cases lo <;> infer_instance

instance (k : Key) (hi : Option Key) : Decidable (okHi k hi) := by
  unfold okHi; cases hi <;> infer_instance

/-- Binary-search-tree invariant with explicit bounds. -/
def IsBSTB : Option Key → Option Key → BTree α → Prop
  | _, _, .leaf => True
  | lo, hi, .node l k _ r =>
      okLo lo k ∧ okHi k hi ∧ IsBSTB lo (some k) l ∧ IsBSTB (some k) hi r

instance : ∀ (lo hi : Option Key) (t : BTree α), Decidable (IsBSTB lo hi t)
  | _, _, .leaf => isTrue trivial
  | lo, hi, .node l k _ r =>
      have : Decidable (IsBSTB lo (some k) l) := instDecidableIsBSTB lo (some k) l
      have : Decidable (IsBSTB (some k) hi r) := instDecidableIsBSTB (some k) hi r
      by unfold IsBSTB; infer_instance

/-- The unbounded BST invariant, as maintained by `btree_insert`. -/
def IsBST (t : BTree α) : Prop := IsBSTB none none t

instance (t : BTree α) : Decidable (IsBST t) := by
  unfold IsBST; infer_instance

/-- First non-zero result of a callback over a listing (0 when all
results are 0). -/
def firstRes (f : Key → α → Int) : List (Key × α) → Int
  | [] => 0
  | (k, v) :: rest =>
      let rc := f k v
      if rc ≠ 0 then rc else firstRes f rest

/-- Build a tree by a sequence of insertions, failing when any insertion
hits an existing key. -/
def insertAll (t : BTree α) : List (Key × α) → Option (BTree α)
  | [] => some t
  | (k, v) :: rest =>
      match bnode_insert t k v with
      | some t2 => insertAll t2 rest
      | none => none

/-- `bnode_walker` with a callback that can crash (NULL-pointer
dereference inside the handler): `none` aborts the walk. -/
def bnode_walkerE (f : Key → α → Option Int) : BTree α → Option Int
  | .leaf => some 0
  | .node l k v r =>
      match bnode_walkerE f l with
      | none => none
      | some rc =>
          if rc ≠ 0 then some rc
          else
            match f k v with
            | none => none
            | some rc2 =>
                if rc2 ≠ 0 then some rc2
                else bnode_walkerE f r

/-- `bnode_walker` with a callback that also records syscall events; the
walk still stops at the first non-zero result, keeping the events emitted
up to that point. -/
def bnode_walkerTr (f : Key → α → Int × List ev) : BTree α → Int × List ev
  | .leaf => (0, [])
  | .node l k v r =>
      let resl := bnode_walkerTr f l
      if resl.1 ≠ 0 then resl
      else
        let resm := f k v
        if resm.1 ≠ 0 then (resm.1, resl.2 ++ resm.2)
        else
          let resr := bnode_walkerTr f r
          (resr.1, resl.2 ++ resm.2 ++ resr.2)

/-- Event-recording `btree_foreach` on a possibly-NULL `BTREE*` (NULL
yields -1 with `EINVAL` and no events). -/
def btree_foreachTr_opt : Option (BTree α) → (Key → α → Int × List ev) → Int × List ev
  | none, _ => (-1, [])
  | some t, f => bnode_walkerTr f t

end BTree

/-!
## Node model and feature flags (`pc.c`)

The embedding fixes the FreeBSD configuration the source is written for:
`ACL_TYPE_NFS4` / `ACL_TYPE_ACCESS` / `ACL_TYPE_DEFAULT`,
`EXTATTR_NAMESPACE_SYSTEM` / `EXTATTR_NAMESPACE_USER` and `UF_ARCHIVE`
are all defined, and the `__FreeBSD__` branch of the times code is
compiled.
-/

/-- File type of `st_mode & S_IFMT`. -/
inductive FType where
  | reg | dir | lnk | blk | chr | fifo | sock | other
  deriving Repr, DecidableEq

/-- The fields of `struct stat` the tool reads.  `st_mode` is split into
`ftype` (the `S_IFMT` bits) and `perm` (the permission bits); timestamps
carry seconds and nanoseconds. -/
structure StatInfo where
  ftype : FType
  perm : Nat
  uid : Nat
  gid : Nat
  size : Int
  mtimeSec : Int
  mtimeNsec : Int
  atimeSec : Int
  atimeNsec : Int
  dev : Nat
  rdev : Nat
  flags : Nat
  deriving Repr, DecidableEq

/-- Extended-attribute value bytes (`ATTRINFO`: `len` is the list
length). -/
abbrev Attr := List Nat

/-- The `NODE` record of `pc.c`: stat info, symlink content `l`, the
three ACLs (represented by their `acl_to_text` canonical text, which is
all the core ever compares), the two xattr maps (NULL maps are `none`),
and the content digest bytes (`d.len` = list length, 0 when absent). -/
structure Node where
  s : StatInfo
  l : Option (List Nat)
  aNfs : Option (List Nat)
  aAcc : Option (List Nat)
  aDef : Option (List Nat)
  xSys : Option (BTree Attr)
  xUsr : Option (BTree Attr)
  dBuf : List Nat
  deriving Repr, DecidableEq

/-- The global feature flags of `pc.c` plus the identity of the calling
process (`getuid`, `geteuid`, and the supplementary group set captured at
startup).  `times` and `flags` are the C counters with level semantics;
`digest` stands for `f_digest != 0`. -/
structure Config where
  update : Bool
  force : Bool
  ignore : Bool
  recurse : Bool
  remove : Bool
  content : Bool
  zero : Bool
  perms : Bool
  owner : Bool
  times : Nat
  acls : Bool
  attrs : Bool
  flags : Nat
  digest : Bool
  uid : Nat
  euid : Nat
  gidset : List Nat
  deriving Repr, DecidableEq

/-- `in_gidset` of `pc.c`. -/
def in_gidset (cfg : Config) (g : Nat) : Bool := cfg.gidset.contains g

/-- `timespec_compare` of `pc.c`. -/
def timespec_compare (aSec aNsec bSec bNsec : Int) : Int :=
  if aSec = bSec then
    if aNsec < bNsec then -1
    else if aNsec > bNsec then 1
    else 0
  else if aSec < bSec then -1
  else if aSec > bSec then 1
  else 0

/-- `acl_compare` of `pc.c` on the `acl_to_text` canonicalizations: one
side NULL is a mismatch (-1), both present compare by text (`strcmp`),
i.e. list equality.  (Both NULL never reaches `acl_compare` in the
sources: every caller guards the first argument.) -/
def acl_compare : Option (List Nat) → Option (List Nat) → Int
  | none, some _ => -1
  | some _, none => -1
  | some x, some y => if x ≠ y then 1 else 0
  | none, none => 0

/-- FreeBSD `UF_ARCHIVE` file flag. -/
def UF_ARCHIVE : Nat := 0x00000800

/-- `st_flags & ~UF_ARCHIVE` on the 32-bit flag word. -/
def flagsSansArchive (n : Nat) : Nat := n &&& (0xFFFFFFFF ^^^ UF_ARCHIVE)

/-- FreeBSD `EXTATTR_NAMESPACE_USER`. -/
def NS_USER : Nat := 1

/-- FreeBSD `EXTATTR_NAMESPACE_SYSTEM`. -/
def NS_SYSTEM : Nat := 2

/-- `errno` value `EPERM`. -/
def EPERM : Nat := 1

/-- `attr_compare_handler` of `pc.c` against a non-NULL peer map: missing
peer attribute is -1, a length mismatch 1, a byte mismatch 2 (the
`memcmp` over the common length, with equal lengths, is list equality). -/
def attr_compare_handler (btp : BTree Attr) (key : Key) (aip : Attr) : Int :=
  match BTree.bnode_search btp key with
  | none => -1
  | some bip =>
      if aip.length ≠ bip.length then 1
      else if aip ≠ bip then 2
      else 0

/-- `attr_compare` of `pc.c`.  The first map is the non-NULL source map
(all callers guard it); the second may be NULL.  A NULL second map makes
the forward walk crash inside `btree_search` at the first visited entry
(`none` result); the reverse walk only runs under the remove policy and
a non-NULL second map. -/
def attr_compare (remove : Bool) (a : BTree Attr) (b : Option (BTree Attr)) : Option Int :=
  match BTree.bnode_walkerE
      (fun k v =>
        match b with
        | none => none
        | some bt => some (attr_compare_handler bt k v)) a with
  | none => none
  | some rc =>
      if rc ≠ 0 then some 1
      else
        match b with
        | none => some 0
        | some bt =>
            if remove then
              match BTree.bnode_walkerE
                  (fun k v => some (attr_compare_handler a k v)) bt with
              | none => none
              | some rc2 => if rc2 ≠ 0 then some (-1) else some 0
            else some 0

/-- `node_compare` of `pc.c`: both nodes absent is 0, exactly one absent
is the -1 "missing" sentinel, otherwise the 32-bit divergence bitmask.
The xattr comparison can crash (NULL destination map), hence the `Option`
result. -/
def node_compare (cfg : Config) : Option Node → Option Node → Option Int
  | none, none => some 0
  | some _, none => some (-1)
  | none, some _ => some (-1)
  | some a, some b =>
      -- file type mode bits
      let d1 : Nat := if a.s.ftype ≠ b.s.ftype then 0x00000001 else 0
      -- ownership (uid enactable by owner or root; gid by root or group membership)
      let d2 : Nat := d1 |||
        (if cfg.owner ∧ a.s.uid ≠ b.s.uid ∧ (a.s.uid = cfg.uid ∨ cfg.euid = 0)
         then 0x00000002 else 0)
      let d3 : Nat := d2 |||
        (if cfg.owner ∧ a.s.gid ≠ b.s.gid ∧ (cfg.euid = 0 ∨ in_gidset cfg a.s.gid = true)
         then 0x00000004 else 0)
      -- symbolic link content
      let d4 : Nat := d3 |||
        (if a.s.ftype = .lnk ∧ a.l ≠ b.l then 0x00000010 else 0)
      -- block & character devices: the code compares st_dev
      let d5 : Nat := d4 |||
        (if (a.s.ftype = .blk ∨ a.s.ftype = .chr) ∧ a.s.dev ≠ b.s.dev
         then 0x00000020 else 0)
      -- modification times (st_mtime seconds): newer-only below level 2
      let d6 : Nat := d5 |||
        (if 0 < cfg.times ∧
            (if cfg.times < 2 then a.s.mtimeSec > b.s.mtimeSec
             else a.s.mtimeSec ≠ b.s.mtimeSec)
         then 0x00000100 else 0)
      -- regular file content: size, then digest length/bytes
      let d7 : Nat := d6 |||
        (if cfg.content ∧ a.s.ftype = .reg ∧ a.s.size ≠ b.s.size
         then 0x00001000 else 0)
      let d8 : Nat := d7 |||
        (if cfg.content ∧ a.s.ftype = .reg ∧ cfg.digest ∧ a.dBuf.length ≠ 0 ∧
            a.dBuf.length ≠ b.dBuf.length
         then 0x00010000 else 0)
      let d9 : Nat := d8 |||
        (if cfg.content ∧ a.s.ftype = .reg ∧ cfg.digest ∧ a.dBuf.length ≠ 0 ∧
            a.dBuf.length = b.dBuf.length ∧ a.dBuf ≠ b.dBuf
         then 0x00020000 else 0)
      -- ACLs by canonical text
      let d10 : Nat := d9 |||
        (if cfg.acls ∧ a.aNfs.isSome = true ∧ acl_compare a.aNfs b.aNfs ≠ 0
         then 0x00100000 else 0)
      let d11 : Nat := d10 |||
        (if cfg.acls ∧ a.aAcc.isSome = true ∧ acl_compare a.aAcc b.aAcc ≠ 0
         then 0x00200000 else 0)
      let d12 : Nat := d11 |||
        (if cfg.acls ∧ a.aDef.isSome = true ∧ acl_compare a.aDef b.aDef ≠ 0
         then 0x00400000 else 0)
      -- extended attributes (may crash on a NULL destination map)
      match (if cfg.attrs then
               match a.xSys with
               | none => some (0 : Nat)
               | some sa =>
                   (attr_compare cfg.remove sa b.xSys).map
                     (fun rc => if rc ≠ 0 then 0x01000000 else 0)
             else some 0) with
      | none => none
      | some ds =>
          match (if cfg.attrs then
                   match a.xUsr with
                   | none => some (0 : Nat)
                   | some ua =>
                       (attr_compare cfg.remove ua b.xUsr).map
                         (fun rc => if rc ≠ 0 then 0x02000000 else 0)
                 else some 0) with
          | none => none
          | some du =>
              -- BSD file flags and the archive bit
              let d13 : Nat := d12 ||| ds ||| du
              let d14 : Nat := d13 |||
                (if 0 < cfg.flags ∧
                    flagsSansArchive a.s.flags ≠ flagsSansArchive b.s.flags
                 then 0x10000000 else 0)
              let d15 : Nat := d14 |||
                (if 1 < cfg.flags ∧ a.s.flags &&& UF_ARCHIVE ≠ 0
                 then 0x20000000 else 0)
              some (Int.ofNat d15)

/-!
## Digest pipeline (`digest.c`)
-/

/-- `DIGEST_TYPE` of `digest.h` (`INVALID = -1`, `NONE = 0`, ...). -/
inductive DigestType where
  | invalid | dnone | adler32 | crc32 | md5 | skein256 | skein1024
  | sha256 | sha512 | sha3x256 | sha3x512
  deriving Repr, DecidableEq

/-- `DIGEST_STATE` of `digest.h`. -/
inductive DigestState where
  | snone | sinit | supdate | sfinal
  deriving Repr, DecidableEq

/-- Which algorithms the build provides (the `HAVE_...` preprocessor
symbols of `digest.c`; an algorithm with no provider leads to the
`errno = ENOSYS` branches). -/
structure Build where
  hasAdler32 : Bool
  hasCrc32 : Bool
  hasMd5 : Bool
  hasSkein256 : Bool
  hasSkein1024 : Bool
  hasSha256 : Bool
  hasSha512 : Bool
  hasSha3x256 : Bool
  hasSha3x512 : Bool
  deriving Repr, DecidableEq

def Build.supports (b : Build) : DigestType → Bool
  | .invalid => false
  | .dnone => true
  | .adler32 => b.hasAdler32
  | .crc32 => b.hasCrc32
  | .md5 => b.hasMd5
  | .skein256 => b.hasSkein256
  | .skein1024 => b.hasSkein1024
  | .sha256 => b.hasSha256
  | .sha512 => b.hasSha512
  | .sha3x256 => b.hasSha3x256
  | .sha3x512 => b.hasSha3x512

/-- The observable part of a `DIGEST` instance: tag, state, and whether
the algorithm-specific context union has been set up by the algorithm's
init call (`none` = the all-zero bytes left by `memset`; `some a` = the
context that `a`'s init routine produced). -/
structure Digest where
  dtype : DigestType
  state : DigestState
  ctx : Option DigestType
  deriving Repr, DecidableEq

/-- `digest_init` of `digest.c`, translated faithfully: after the
`DIGEST_TYPE_INVALID` guard the struct is `memset` to zero and the switch
then reads `dp->type` — the field the `memset` just cleared, not the
`type` argument — so the match below scrutinizes the zeroed field.  The
result pairs the new instance with the C return code. -/
def digest_init (b : Build) (dp : Digest) (ty : DigestType) : Digest × Int :=
  if ty = .invalid then (dp, -1)
  else
    -- memset(dp, 0, sizeof(*dp)); dp->state = DIGEST_STATE_NONE;
    let dp2 : Digest := { dtype := .dnone, state := .snone, ctx := none }
    -- switch (dp->type) { ... }  (note: dp->type, freshly zeroed)
    match dp2.dtype with
    | .dnone =>
        ({ dp2 with dtype := ty, state := .sinit }, 0)
    | .adler32 =>
        if b.hasAdler32 then ({ dp2 with dtype := ty, state := .sinit, ctx := some .adler32 }, 0)
        else (dp2, -1)
    | .crc32 =>
        if b.hasCrc32 then ({ dp2 with dtype := ty, state := .sinit, ctx := some .crc32 }, 0)
        else (dp2, -1)
    | .md5 =>
        if b.hasMd5 then ({ dp2 with dtype := ty, state := .sinit, ctx := some .md5 }, 0)
        else (dp2, -1)
    | .skein256 =>
        if b.hasSkein256 then ({ dp2 with dtype := ty, state := .sinit, ctx := some .skein256 }, 0)
        else (dp2, -1)
    | .skein1024 =>
        if b.hasSkein1024 then ({ dp2 with dtype := ty, state := .sinit, ctx := some .skein1024 }, 0)
        else (dp2, -1)
    | .sha256 =>
        if b.hasSha256 then ({ dp2 with dtype := ty, state := .sinit, ctx := some .sha256 }, 0)
        else (dp2, -1)
    | .sha512 =>
        if b.hasSha512 then ({ dp2 with dtype := ty, state := .sinit, ctx := some .sha512 }, 0)
        else (dp2, -1)
    | .sha3x256 =>
        if b.hasSha3x256 then ({ dp2 with dtype := ty, state := .sinit, ctx := some .sha3x256 }, 0)
        else (dp2, -1)
    | .sha3x512 =>
        if b.hasSha3x512 then ({ dp2 with dtype := ty, state := .sinit, ctx := some .sha3x512 }, 0)
        else (dp2, -1)
    | .invalid => (dp2, -1)

/-!
## Copy engine (`file_copy` of `pc.c`, plain read/write backend:
`USE_AIO = USE_SENDFILE = 0`)

The destination file is modelled by its byte content and the file
offset; `lseek` past the end followed by a write fills the gap with
zeros (POSIX sparse semantics), and the logical size is the furthest
byte ever written.
-/

/-- `buffer_zero_check` of `pc.c`: 1 iff every byte of the buffer is
NUL. -/
def buffer_zero_check (buf : List Nat) : Bool := buf.all (fun x => x = 0)

/-- Destination-file state: content written so far and the current file
offset. -/
structure DState where
  data : List Nat
  pos : Nat
  deriving Repr, DecidableEq

/-- `write(dst_fd, bs)`: zero-fill any gap between the end of the data
and the offset, then overwrite/extend at the offset. -/
def dwrite (st : DState) (bs : List Nat) : DState :=
  let padded := st.data ++ List.replicate (st.pos - st.data.length) 0
  { data := padded.take st.pos ++ bs ++ padded.drop (st.pos + bs.length),
    pos := st.pos + bs.length }

/-- `lseek(dst_fd, off, SEEK_CUR)`: moves the offset, touches no data. -/
def dseek_cur (st : DState) (off : Int) : DState :=
  { st with pos := (Int.ofNat st.pos + off).toNat }

/-- Split the source into read-sized blocks of `b+1` bytes (the block
size is positive by construction; the final block may be short).  Each
`read` of the C loop returns one block. -/
def chunks (b : Nat) : List Nat → List (List Nat)
  | [] => []
  | x :: xs => ((x :: xs).take (b+1)) :: chunks b ((x :: xs).drop (b+1))
  termination_by s => s.length
  decreasing_by
    simp [List.length_drop]
    omega

/-- The read/write loop of `file_copy`: an all-NUL block under the
zero-fill policy becomes `lseek(+len, SEEK_CUR)` and sets `holed`;
otherwise the block is written. -/
def file_copy_loop (zero : Bool) (st : DState) (holed : Bool) :
    List (List Nat) → DState × Bool
  | [] => (st, holed)
  | c :: rest =>
      if zero ∧ buffer_zero_check c = true then
        file_copy_loop zero (dseek_cur st (Int.ofNat c.length)) true rest
      else
        file_copy_loop zero (dwrite st c) holed rest

/-- `file_copy` of `pc.c` restricted to its effect on the destination
content: block size `b+1`, source bytes `src` (the C uses a fixed
128 KiB buffer; the block size is a parameter here because the claim
quantifies over it).  After the loop, if any block was elided the code
seeks one byte back and writes a single NUL byte.  Returns the
destination's logical content. -/
def file_copy (zero : Bool) (b : Nat) (src : List Nat) : List Nat :=
  -- open(dstpath, O_WRONLY|O_CREAT|O_TRUNC, mode)
  let st0 : DState := { data := [], pos := 0 }
  let res := file_copy_loop zero st0 false (chunks b src)
  if res.2 then
    -- lseek(dst_fd, -1, SEEK_CUR); char z = 0; write(dst_fd, &z, 1)
    (dwrite (dseek_cur res.1 (-1)) [0]).data
  else
    res.1.data

/-!
## Metadata writer (`node_update` of `pc.c`)

The writer is embedded as a pure function from the inputs and an oracle
of syscall results to the trace of mutating syscalls it issues and its
outcome.  `Flow.cont rc` is normal fall-through with the current `rc`
accumulator, `Flow.ret rc` an early `return`, and `Flow.crash` a NULL
`dst_nip` dereference.
-/

/-- Syscall events issued by the writer and the driver. -/
inductive Ev where
  | lchown (uid gid : Nat)
  | lchmod (ftype : FType) (perm : Nat)
  | xattrSet (ns : Nat) (key : Key)
  | xattrDel (ns : Nat) (key : Key)
  | aclSet (kind : Nat)
  | utimensat (atimeSec atimeNsec mtimeSec mtimeNsec : Int)
  | lchflagsDst (flags : Nat)
  | lchflagsSrc (flags : Nat)
  | fileCopy | mkdirE | symlinkE | mknodE | mkfifoE | bindE
  | unlinkE | rmdirE
  | recurse
  | nodeUpd
  | nodeGet
  deriving Repr, DecidableEq

/-- Whether an event is an `lchown` call. -/
def Ev.isChown : Ev → Bool
  | .lchown _ _ => true
  | _ => false

/-- Whether an event is an `lchmod` call. -/
def Ev.isChmod : Ev → Bool
  | .lchmod _ _ => true
  | _ => false

/-- Control flow inside `node_update`. -/
inductive Flow where
  | cont (rc : Int)
  | ret (rc : Int)
  | crash
  deriving Repr, DecidableEq

/-- Trace plus control flow. -/
structure NUState where
  tr : List Ev
  flow : Flow
  deriving Repr, DecidableEq

/-- Run a step only while control falls through. -/
def nustep (f : Int → List Ev → NUState) (st : NUState) : NUState :=
  match st.flow with
  | .cont rc => f rc st.tr
  | _ => st

/-- Results the kernel returns for each syscall `node_update` can issue
(xattr results are per namespace and name). -/
structure World where
  lchownRes : Int
  lchownErrno : Nat
  lchmodRes : Int
  xattrSetRes : Nat → Key → Int
  xattrDelRes : Nat → Key → Int
  aclSetNfsRes : Int
  aclSetAccRes : Int
  aclSetDefRes : Int
  utimensatRes : Int
  lchflagsDstRes : Int
  lchflagsSrcRes : Int

/-- The guard of the ownership step: `!dst_nip || uid differs || gid
differs`. -/
def owner_differs (src : Node) : Option Node → Bool
  | none => true
  | some d => src.s.uid != d.s.uid || src.s.gid != d.s.gid

/-- The guard of the mode step: `!dst_nip || st_mode differs` (file type
plus permission bits). -/
def mode_differs (src : Node) : Option Node → Bool
  | none => true
  | some d => src.s.ftype != d.s.ftype || src.s.perm != d.s.perm

/-- Ownership step of `node_update`: `lchown` is attempted only when the
caller owns the source uid or is root; a failure with `errno == EPERM` is
ignored silently, any other failure sets `rc = -1` and returns unless the
ignore policy is on. -/
def node_update_owner (ownerF ignoreF : Bool) (uidC euidC : Nat)
    (res : Int) (errnoV : Nat) (src : Node) (dst : Option Node) :
    NUState → NUState :=
  nustep fun rc tr =>
    if ownerF then
      if owner_differs src dst then
        if src.s.uid = uidC ∨ euidC = 0 then
          let tr2 := tr ++ [Ev.lchown src.s.uid src.s.gid]
          if res < 0 ∧ errnoV ≠ EPERM then
            if ignoreF then ⟨tr2, .cont (-1)⟩ else ⟨tr2, .ret (-1)⟩
          else ⟨tr2, .cont rc⟩
        else ⟨tr, .cont rc⟩
      else ⟨tr, .cont rc⟩
    else ⟨tr, .cont rc⟩

/-- Mode step of `node_update` (`lchmod`), skipped when the destination
mode already matches. -/
def node_update_perms (permsF ignoreF : Bool) (res : Int)
    (src : Node) (dst : Option Node) : NUState → NUState :=
  nustep fun rc tr =>
    if permsF then
      if mode_differs src dst then
        let tr2 := tr ++ [Ev.lchmod src.s.ftype src.s.perm]
        if res < 0 then
          if ignoreF then ⟨tr2, .cont (-1)⟩ else ⟨tr2, .ret (-1)⟩
        else ⟨tr2, .cont rc⟩
      else ⟨tr, .cont rc⟩
    else ⟨tr, .cont rc⟩

/-- `attr_update` of `pc.c` as a walk callback: skip when the destination
already stores an identical value (unless forcing or the destination map
is NULL), otherwise `extattr_set_link`. -/
def attr_update (forceF : Bool) (setRes : Nat → Key → Int) (ns : Nat)
    (dstAttrs : Option (BTree Attr)) (k : Key) (v : Attr) : Int × List Ev :=
  match dstAttrs with
  | some m =>
      if forceF then (setRes ns k, [Ev.xattrSet ns k])
      else
        match BTree.bnode_search m k with
        | some bv =>
            if bv.length = v.length ∧ bv = v then (0, [])
            else (setRes ns k, [Ev.xattrSet ns k])
        | none => (setRes ns k, [Ev.xattrSet ns k])
  | none => (setRes ns k, [Ev.xattrSet ns k])

/-- `attr_remove` of `pc.c` as a walk callback: delete the destination
attribute unless the source map stores the key. -/
def attr_remove (delRes : Nat → Key → Int) (ns : Nat)
    (srcAttrs : Option (BTree Attr)) (k : Key) (_v : Attr) : Int × List Ev :=
  match srcAttrs with
  | some m =>
      match BTree.bnode_search m k with
      | some _ => (0, [])
      | none => (delRes ns k, [Ev.xattrDel ns k])
  | none => (delRes ns k, [Ev.xattrDel ns k])

/-- The `EXTATTR_NAMESPACE_SYSTEM` block of the xattr step: with a
non-NULL source map the C code reads `dst_nip->x.sys` without a NULL
check on `dst_nip` (`none` = crash); otherwise it installs the source
attributes and, under the remove policy (the source's own guard re-tests
`src_nip->x.sys`, always true here), deletes destination-only ones. -/
def attrs_ns_sys (forceF removeF : Bool) (setRes delRes : Nat → Key → Int)
    (src : Node) (dst : Option Node) : Option (List Ev) :=
  match src.xSys with
  | none => some []
  | some ssys =>
      match dst with
      | none => none
      | some d =>
          let a1 := (BTree.bnode_walkerTr
              (attr_update forceF setRes NS_SYSTEM d.xSys) ssys).2
          let a2 :=
            if removeF then
              (BTree.btree_foreachTr_opt d.xSys
                (attr_remove delRes NS_SYSTEM (some ssys))).2
            else []
          some (a1 ++ a2)

/-- The `EXTATTR_NAMESPACE_USER` block of the xattr step; its remove
guard tests `dst_nip->x.usr` instead. -/
def attrs_ns_usr (forceF removeF : Bool) (setRes delRes : Nat → Key → Int)
    (src : Node) (dst : Option Node) : Option (List Ev) :=
  match src.xUsr with
  | none => some []
  | some susr =>
      match dst with
      | none => none
      | some d =>
          let a1 := (BTree.bnode_walkerTr
              (attr_update forceF setRes NS_USER d.xUsr) susr).2
          let a2 :=
            if removeF ∧ d.xUsr.isSome = true then
              (BTree.btree_foreachTr_opt d.xUsr
                (attr_remove delRes NS_USER (some susr))).2
            else []
          some (a1 ++ a2)

def node_update_attrs (attrsF forceF removeF : Bool)
    (setRes delRes : Nat → Key → Int) (src : Node) (dst : Option Node) :
    NUState → NUState :=
  nustep fun rc tr =>
    if attrsF then
      match attrs_ns_sys forceF removeF setRes delRes src dst with
      | none => ⟨tr, .crash⟩
      | some trsys =>
          match attrs_ns_usr forceF removeF setRes delRes src dst with
          | none => ⟨tr ++ trsys, .crash⟩
          | some trusr => ⟨tr ++ trsys ++ trusr, .cont rc⟩
    else ⟨tr, .cont rc⟩

/-- One ACL kind of the ACL step: with a present source ACL the C code
reads `dst_nip->a.*` without a NULL check on `dst_nip` (crash on a NULL
destination node); a differing or absent destination ACL triggers
`acl_set_link_np`, whose failure sets `rc = -1` and returns unless
ignoring. -/
def node_update_acl1 (ignoreF : Bool) (srcAcl : Option (List Nat))
    (dstAcl : Node → Option (List Nat)) (kind : Nat) (res : Int)
    (dst : Option Node) : NUState → NUState :=
  nustep fun rc tr =>
    match srcAcl with
    | none => ⟨tr, .cont rc⟩
    | some sa =>
        match dst with
        | none => ⟨tr, .crash⟩
        | some d =>
            if dstAcl d = none ∨ acl_compare (some sa) (dstAcl d) ≠ 0 then
              let tr2 := tr ++ [Ev.aclSet kind]
              if res < 0 then
                if ignoreF then ⟨tr2, .cont (-1)⟩ else ⟨tr2, .ret (-1)⟩
              else ⟨tr2, .cont rc⟩
            else ⟨tr, .cont rc⟩

/-- ACL step of `node_update`: the NFS4, access and default kinds in
order. -/
def node_update_acls (aclsF ignoreF : Bool) (resNfs resAcc resDef : Int)
    (src : Node) (dst : Option Node) (st : NUState) : NUState :=
  if aclsF then
    node_update_acl1 ignoreF src.aDef (fun d => d.aDef) 2 resDef dst
      (node_update_acl1 ignoreF src.aAcc (fun d => d.aAcc) 1 resAcc dst
        (node_update_acl1 ignoreF src.aNfs (fun d => d.aNfs) 0 resNfs dst st))
  else st

/-- The guard of the times step: `!dst_nip || mtim differs || atim
differs` (`timespec_compare`, FreeBSD branch). -/
def times_differ (src : Node) : Option Node → Bool
  | none => true
  | some d =>
      timespec_compare src.s.mtimeSec src.s.mtimeNsec d.s.mtimeSec d.s.mtimeNsec != 0 ||
      timespec_compare src.s.atimeSec src.s.atimeNsec d.s.atimeSec d.s.atimeNsec != 0

/-- Times step of `node_update` (only at times level > 1): `utimensat`
with `AT_SYMLINK_NOFOLLOW`; note the C assigns `rc = utimensat(...)` and
on failure returns `f_ignore ? 0 : rc` — an error returns even when
ignoring. -/
def node_update_times (timesL : Nat) (ignoreF : Bool) (res : Int)
    (src : Node) (dst : Option Node) : NUState → NUState :=
  nustep fun rc tr =>
    if 1 < timesL then
      if times_differ src dst then
        let tr2 := tr ++ [Ev.utimensat src.s.atimeSec src.s.atimeNsec
            src.s.mtimeSec src.s.mtimeNsec]
        if res < 0 then
          ⟨tr2, if ignoreF then .ret 0 else .ret res⟩
        else ⟨tr2, .cont res⟩
      else ⟨tr, .cont rc⟩
    else ⟨tr, .cont rc⟩

/-- The guard of the flags step: `!dst_nip || (st_flags & ~UF_ARCHIVE)
differs`. -/
def flags_differ (src : Node) : Option Node → Bool
  | none => true
  | some d => flagsSansArchive src.s.flags != flagsSansArchive d.s.flags

/-- Flags step of `node_update`: replicate all flags but the archive bit
to the destination; at flags level > 1 additionally clear a set archive
bit on the *source*.  Both `lchflags` failures return `f_ignore ? 0 :
rc`. -/
def node_update_flags (flagsL : Nat) (ignoreF : Bool) (resDst resSrc : Int)
    (src : Node) (dst : Option Node) : NUState → NUState :=
  nustep fun rc tr =>
    if 0 < flagsL then
      let st1 : NUState :=
        if flags_differ src dst then
          let tr2 := tr ++ [Ev.lchflagsDst src.s.flags]
          if resDst < 0 then
            ⟨tr2, if ignoreF then .ret 0 else .ret resDst⟩
          else ⟨tr2, .cont resDst⟩
        else ⟨tr, .cont rc⟩
      nustep (fun rc2 tr2 =>
        if 1 < flagsL ∧ src.s.flags &&& UF_ARCHIVE ≠ 0 then
          let tr3 := tr2 ++ [Ev.lchflagsSrc (flagsSansArchive src.s.flags)]
          if resSrc < 0 then
            ⟨tr3, if ignoreF then .ret 0 else .ret resSrc⟩
          else ⟨tr3, .cont resSrc⟩
        else ⟨tr2, .cont rc2⟩) st1
    else ⟨tr, .cont rc⟩

/-- `node_update` of `pc.c`: owner, mode, xattrs, ACLs, times, flags, in
that order, over an oracle of syscall results.  The final C `return rc`
is the `rc` of a terminal `Flow.cont`; `Flow.ret` carries an early
return's value; `Flow.crash` is a NULL `dst_nip` dereference in the
xattr or ACL steps. -/
def node_update (cfg : Config) (w : World) (src : Node) (dst : Option Node) :
    NUState :=
  node_update_flags cfg.flags cfg.ignore w.lchflagsDstRes w.lchflagsSrcRes src dst
    (node_update_times cfg.times cfg.ignore w.utimensatRes src dst
      (node_update_acls cfg.acls cfg.ignore w.aclSetNfsRes w.aclSetAccRes w.aclSetDefRes src dst
        (node_update_attrs cfg.attrs cfg.force cfg.remove w.xattrSetRes w.xattrDelRes src dst
          (node_update_perms cfg.perms cfg.ignore w.lchmodRes src dst
            (node_update_owner cfg.owner cfg.ignore cfg.uid cfg.euid
              w.lchownRes w.lchownErrno src dst ⟨[], .cont 0⟩)))))

/-- The value `node_update` returns (`none` when it crashes). -/
def node_update_rc (st : NUState) : Option Int :=
  match st.flow with
  | .cont rc => some rc
  | .ret rc => some rc
  | .crash => none

/-!
## Replication driver (`check_new_or_updated` of `pc.c`)

The per-name visitor is embedded as a pure function to the trace of
filesystem mutations it issues (with recursion into a subdirectory and
the `node_update` call each recorded as one completed event) and its
return value; `none` is a crash inside `node_compare`.  Each syscall's
result comes from the oracle below (no syscall is issued twice on any
single path through the function, so one result per syscall suffices).
-/

/-- Results the kernel and the recursive calls return for the driver's
operations. -/
structure DWorld where
  fileCopyRes : Int
  mkdirRes : Int
  symlinkRes : Int
  mknodRes : Int
  mkfifoRes : Int
  socketRes : Int
  bindRes : Int
  unlinkRes : Int
  rmdirRes : Int
  recurseRes : Int
  nodeGetRes : Int
  nodeUpdateRes : Int
  deriving Repr, DecidableEq

/-- The object-creation dispatch of the destination-missing branch.
Errors are normalized to the value the C branch returns (`rc` for most
types, the literal -1 for `symlink` and the socket path); a socket
failure before `bind` emits nothing. -/
def create_new (cfg : Config) (dw : DWorld) (src : Node) : Int × List Ev :=
  match src.s.ftype with
  | .reg => if cfg.content then (dw.fileCopyRes, [Ev.fileCopy]) else (0, [])
  | .dir => (dw.mkdirRes, [Ev.mkdirE])
  | .lnk => (if dw.symlinkRes < 0 then -1 else dw.symlinkRes, [Ev.symlinkE])
  | .blk => (dw.mknodRes, [Ev.mknodE])
  | .chr => (dw.mknodRes, [Ev.mknodE])
  | .fifo => (dw.mkfifoRes, [Ev.mkfifoE])
  | .sock =>
      if dw.socketRes < 0 then (-1, [])
      else if dw.bindRes < 0 then (-1, [Ev.bindE])
      else (0, [Ev.bindE])
  | .other => (0, [])

/-- The object-creation dispatch of the type-changed branches (the source
is not a directory there; all errors return `rc`). -/
def create_replaced (cfg : Config) (dw : DWorld) (src : Node) : Int × List Ev :=
  match src.s.ftype with
  | .reg => if cfg.content then (dw.fileCopyRes, [Ev.fileCopy]) else (0, [])
  | .lnk => (dw.symlinkRes, [Ev.symlinkE])
  | .blk => (dw.mknodRes, [Ev.mknodE])
  | .chr => (dw.mknodRes, [Ev.mknodE])
  | .fifo => (dw.mkfifoRes, [Ev.mkfifoE])
  | .sock =>
      if dw.socketRes < 0 then (-1, [])
      else if dw.bindRes < 0 then (-1, [Ev.bindE])
      else (0, [Ev.bindE])
  | .dir => (0, [])
  | .other => (0, [])

/-- `check_new_or_updated` of `pc.c` for one source name: `src` is the
source node, `dst` the result of looking the name up in the destination
map.  Returns the event trace and the return value (`none` = crash in
`node_compare`). -/
def check_new_or_updated (cfg : Config) (dw : DWorld) (src : Node)
    (dst : Option Node) : List Ev × Option Int :=
  let ig : Int → Int := fun rc => if cfg.ignore then 0 else rc
  match dst with
  | none =>
      -- New file or dir
      let c : Int × List Ev :=
        if cfg.update then create_new cfg dw src else (0, [])
      if c.1 < 0 then (c.2, some (ig c.1))
      else
        let r : Int × List Ev :=
          if cfg.recurse ∧ src.s.ftype = .dir then (dw.recurseRes, [Ev.recurse])
          else (0, [])
        if r.1 < 0 then (c.2 ++ r.2, some (ig r.1))
        else
          -- update after the subdirectory traversal, to preserve timestamps
          if cfg.update then
            if dw.nodeUpdateRes < 0 then
              (c.2 ++ r.2 ++ [Ev.nodeUpd], some (ig dw.nodeUpdateRes))
            else (c.2 ++ r.2 ++ [Ev.nodeUpd], some 0)
          else (c.2 ++ r.2, some 0)
  | some d =>
      if src.s.ftype ≠ d.s.ftype then
        if src.s.ftype = .dir then
          -- changed from non-dir to dir: unlink, mkdir, refresh, recurse, update
          if cfg.update then
            if dw.unlinkRes < 0 then ([Ev.unlinkE], some (ig dw.unlinkRes))
            else if dw.mkdirRes < 0 then
              ([Ev.unlinkE, Ev.mkdirE], some (ig dw.mkdirRes))
            else if dw.nodeGetRes < 0 then
              ([Ev.unlinkE, Ev.mkdirE, Ev.nodeGet], some (ig dw.nodeGetRes))
            else
              let tr0 := [Ev.unlinkE, Ev.mkdirE, Ev.nodeGet]
              if cfg.recurse then
                if dw.recurseRes < 0 then
                  (tr0 ++ [Ev.recurse], some (ig dw.recurseRes))
                else if dw.nodeUpdateRes < 0 then
                  (tr0 ++ [Ev.recurse, Ev.nodeUpd], some (ig dw.nodeUpdateRes))
                else (tr0 ++ [Ev.recurse, Ev.nodeUpd], some 0)
              else
                if dw.nodeUpdateRes < 0 then
                  (tr0 ++ [Ev.nodeUpd], some (ig dw.nodeUpdateRes))
                else (tr0 ++ [Ev.nodeUpd], some 0)
          else
            if cfg.recurse then
              if dw.recurseRes < 0 then ([Ev.recurse], some (ig dw.recurseRes))
              else ([Ev.recurse], some 0)
            else ([], some 0)
        else if d.s.ftype = .dir then
          -- changed from dir to non-dir: recurse, rmdir, re-create, update, refresh
          let recP : Int × List Ev :=
            if cfg.recurse then (dw.recurseRes, [Ev.recurse]) else (0, [])
          if recP.1 < 0 then (recP.2, some (ig recP.1))
          else
            if cfg.update then
              if dw.rmdirRes < 0 then
                (recP.2 ++ [Ev.rmdirE], some (ig dw.rmdirRes))
              else
                let c := create_replaced cfg dw src
                if c.1 < 0 then
                  (recP.2 ++ [Ev.rmdirE] ++ c.2, some (ig c.1))
                else
                  let tr1 := recP.2 ++ [Ev.rmdirE] ++ c.2
                  if dw.nodeUpdateRes < 0 then
                    (tr1 ++ [Ev.nodeUpd], some (ig dw.nodeUpdateRes))
                  else if dw.nodeGetRes < 0 then
                    (tr1 ++ [Ev.nodeUpd, Ev.nodeGet], some (ig dw.nodeGetRes))
                  else (tr1 ++ [Ev.nodeUpd, Ev.nodeGet], some 0)
            else (recP.2, some 0)
        else
          -- changed from non-dir to non-dir: unlink, re-create, update, refresh
          if cfg.update then
            if dw.unlinkRes < 0 then ([Ev.unlinkE], some (ig dw.unlinkRes))
            else
              let c := create_replaced cfg dw src
              if c.1 < 0 then ([Ev.unlinkE] ++ c.2, some (ig c.1))
              else
                let tr1 := [Ev.unlinkE] ++ c.2
                if dw.nodeUpdateRes < 0 then
                  (tr1 ++ [Ev.nodeUpd], some (ig dw.nodeUpdateRes))
                else if dw.nodeGetRes < 0 then
                  (tr1 ++ [Ev.nodeUpd, Ev.nodeGet], some (ig dw.nodeGetRes))
                else (tr1 ++ [Ev.nodeUpd, Ev.nodeGet], some 0)
          else ([], some 0)
      else
        -- same type: recurse into directories first, then compare
        let recP : Int × List Ev :=
          if cfg.recurse ∧ d.s.ftype = .dir then (dw.recurseRes, [Ev.recurse])
          else (0, [])
        if recP.1 < 0 then (recP.2, some (ig recP.1))
        else
          let body : Int → List Ev × Option Int := fun dval =>
            if cfg.update then
              let special : Int × List Ev :=
                if src.s.ftype = .reg ∧ cfg.content ∧
                    (cfg.force ∨ dval < 0 ∨ dval.toNat &&& 0x200fff00 ≠ 0) then
                  (dw.fileCopyRes, [Ev.fileCopy])
                else if src.s.ftype = .lnk ∧
                    (cfg.force ∨ dval < 0 ∨ dval.toNat &&& 0x000000f0 ≠ 0) then
                  if dw.unlinkRes < 0 then (dw.unlinkRes, [Ev.unlinkE])
                  else (dw.symlinkRes, [Ev.unlinkE, Ev.symlinkE])
                else if src.s.ftype = .blk ∨ src.s.ftype = .chr then
                  if dw.unlinkRes < 0 then (dw.unlinkRes, [Ev.unlinkE])
                  else (dw.mknodRes, [Ev.unlinkE, Ev.mknodE])
                else (0, [])
              if special.1 < 0 then
                (recP.2 ++ special.2, some (ig special.1))
              else
                let tr1 := recP.2 ++ special.2
                if dw.nodeUpdateRes < 0 then
                  (tr1 ++ [Ev.nodeUpd], some (ig dw.nodeUpdateRes))
                else if dw.nodeGetRes < 0 then
                  (tr1 ++ [Ev.nodeUpd, Ev.nodeGet], some (ig dw.nodeGetRes))
                else (tr1 ++ [Ev.nodeUpd, Ev.nodeGet], some 0)
            else (recP.2, some 0)
          if cfg.force then body 0
          else
            match node_compare cfg (some src) (some d) with
            | none => (recP.2, none)
            | some dval => if dval ≠ 0 then body dval else (recP.2, some 0)

/-- Truth of "no recursion event occurs after a `node_update` event" on a
trace: drop everything before the first `nodeUpd`, then no `recurse`. -/
def noRecurseAfterUpdate (tr : List Ev) : Bool :=
  (tr.dropWhile (fun e => e != Ev.nodeUpd)).all (fun e => e != Ev.recurse)

/-!
## Sample inputs used by concrete evaluations
-/

/-- A configuration with every policy off (the compiled-in defaults of
`pc.c` with updates and content copying on), run by an unprivileged
caller. -/
def cfgDev : Config :=
  { update := true, force := false, ignore := false, recurse := false,
    remove := false, content := true, zero := false, perms := false,
    owner := false, times := 0, acls := false, attrs := false, flags := 0,
    digest := false, uid := 1000, euid := 1000, gidset := [] }

/-- A baseline `struct stat`. -/
def statBase : StatInfo :=
  { ftype := .reg, perm := 420, uid := 0, gid := 0, size := 0,
    mtimeSec := 0, mtimeNsec := 0, atimeSec := 0, atimeNsec := 0,
    dev := 0, rdev := 0, flags := 0 }

/-- A node with the given stat info and no link target, ACLs, xattr maps
or digest. -/
def nodeOf (s : StatInfo) : Node :=
  { s := s, l := none, aNfs := none, aAcc := none, aDef := none,
    xSys := none, xUsr := none, dBuf := [] }

/-- A syscall-result oracle where every call succeeds. -/
def worldOk : World :=
  { lchownRes := 0, lchownErrno := 0, lchmodRes := 0,
    xattrSetRes := fun _ _ => 0, xattrDelRes := fun _ _ => 0,
    aclSetNfsRes := 0, aclSetAccRes := 0, aclSetDefRes := 0,
    utimensatRes := 0, lchflagsDstRes := 0, lchflagsSrcRes := 0 }

/-- A driver oracle where every operation succeeds. -/
def dworldOk : DWorld :=
  { fileCopyRes := 0, mkdirRes := 0, symlinkRes := 0, mknodRes := 0,
    mkfifoRes := 0, socketRes := 0, bindRes := 0, unlinkRes := 0,
    rmdirRes := 0, recurseRes := 0, nodeGetRes := 0, nodeUpdateRes := 0 }

end PC

/-! ## Theorems -/

/-! ## Theorems -/

namespace PC

theorem strcmp_self (a : Key) : strcmp a a = 0 := by
  induction a with
  | nil => rfl
  | cons x xs ih => simp [strcmp, ih]

theorem strcmp_eq_zero_iff {a b : Key} : strcmp a b = 0 ↔ a = b := by
  induction a generalizing b with
  | nil => cases b <;> simp [strcmp]
  | cons x xs ih =>
      cases b with
      | nil => simp [strcmp]
      | cons y ys =>
          by_cases hxy : x < y
          · simp [strcmp, hxy]
            exact fun he => absurd he (by omega)
          · by_cases hyx : y < x
            · simp [strcmp, hxy, hyx]
              exact fun he => absurd he (by omega)
            · have hxyeq : x = y := Nat.le_antisymm (Nat.le_of_not_lt hyx) (Nat.le_of_not_lt hxy)
              subst hxyeq
              simp [strcmp, ih]

theorem strcmp_asymm {a b : Key} (h : strcmp a b = -1) : strcmp b a = 1 := by
  induction a generalizing b with
  | nil =>
      cases b with
      | nil => simp [strcmp] at h
      | cons y ys => simp [strcmp]
  | cons x xs ih =>
      cases b with
      | nil => simp [strcmp] at h
      | cons y ys =>
          by_cases hxy : x < y
          · simp [strcmp, hxy, Nat.lt_asymm hxy]
          · by_cases hyx : y < x
            · simp [strcmp, hxy, hyx] at h
            · have hxyeq : x = y := Nat.le_antisymm (Nat.le_of_not_lt hyx) (Nat.le_of_not_lt hxy)
              subst hxyeq
              simp [strcmp, hxy] at h ⊢
              exact ih h

theorem strcmp_trichotomy (a b : Key) :
    strcmp a b = -1 ∨ strcmp a b = 0 ∨ strcmp a b = 1 := by
  induction a generalizing b with
  | nil => cases b <;> simp [strcmp]
  | cons x xs ih =>
      cases b with
      | nil => simp [strcmp]
      | cons y ys =>
          by_cases hxy : x < y
          · simp [strcmp, hxy]
          · by_cases hyx : y < x
            · simp [strcmp, hxy, hyx]
            · simp [strcmp, hxy, hyx]
              exact ih ys

theorem keyLt_trans {a b c : Key} (hab : keyLt a b) (hbc : keyLt b c) : keyLt a c := by
  unfold keyLt at *
  induction a generalizing b c with
  | nil =>
      cases c with
      | nil =>
          cases b with
          | nil => simp [strcmp] at hab
          | cons y ys => simp [strcmp] at hbc
      | cons z zs => simp [strcmp]
  | cons x xs ih =>
      cases b with
      | nil => simp [strcmp] at hab
      | cons y ys =>
          cases c with
          | nil => simp [strcmp] at hbc
          | cons z zs =>
              by_cases hxy : x < y
              · by_cases hyz : y < z
                · simp [strcmp, Nat.lt_trans hxy hyz]
                · by_cases hzy : z < y
                  · simp [strcmp, hyz, hzy] at hbc
                  · have : y = z := Nat.le_antisymm (Nat.le_of_not_lt hzy) (Nat.le_of_not_lt hyz)
                    subst this
                    simp [strcmp, hxy]
              · by_cases hyx : y < x
                · simp [strcmp, hxy, hyx] at hab
                · have hxyeq : x = y := Nat.le_antisymm (Nat.le_of_not_lt hyx) (Nat.le_of_not_lt hxy)
                  subst hxyeq
                  simp [strcmp, hxy] at hab
                  by_cases hxz : x < z
                  · simp [strcmp, hxz]
                  · by_cases hzx : z < x
                    · simp [strcmp, hxz, hzx] at hbc
                    · have : x = z := Nat.le_antisymm (Nat.le_of_not_lt hzx) (Nat.le_of_not_lt hxz)
                      subst this
                      simp [strcmp, hxz] at hbc ⊢
                      exact ih hab hbc

theorem keyLt_irrefl (a : Key) : ¬ keyLt a a := by
  unfold keyLt
  simp [strcmp_self]

theorem strcmp_pos_of_keyLt {a b : Key} (h : keyLt b a) : strcmp a b = 1 :=
  strcmp_asymm h

theorem strcmp_asymm2 {a b : Key} (h : strcmp a b = 1) : strcmp b a = -1 := by
  induction a generalizing b with
  | nil =>
      cases b with
      | nil => simp [strcmp] at h
      | cons y ys => simp [strcmp] at h
  | cons x xs ih =>
      cases b with
      | nil => simp [strcmp]
      | cons y ys =>
          by_cases hxy : x < y
          · simp [strcmp, hxy] at h
          · by_cases hyx : y < x
            · simp [strcmp, hyx]
            · have hxyeq : x = y := Nat.le_antisymm (Nat.le_of_not_lt hyx) (Nat.le_of_not_lt hxy)
              subst hxyeq
              simp [strcmp, hxy] at h ⊢
              exact ih h

namespace BTree

theorem isBSTB_mem_bounds {t : BTree α} {lo hi : Option Key}
    (h : IsBSTB lo hi t) :
    ∀ p ∈ inorder t, okLo lo p.1 ∧ okHi p.1 hi := by
  induction t generalizing lo hi with
  | leaf => intro p hp; simp [inorder] at hp
  | node l k v r ihl ihr =>
      obtain ⟨hlo, hhi, hl, hr⟩ := h
      intro p hp
      simp only [inorder, List.mem_append, List.mem_cons] at hp
      rcases hp with hp | hp | hp
      · obtain ⟨h1, h2⟩ := ihl hl p hp
        refine ⟨h1, ?_⟩
        cases hi with
        | none => trivial
        | some y =>
            have hk : keyLt p.1 k := h2
            exact keyLt_trans hk hhi
      · subst hp; exact ⟨hlo, hhi⟩
      · obtain ⟨h1, h2⟩ := ihr hr p hp
        refine ⟨?_, h2⟩
        cases lo with
        | none => trivial
        | some x =>
            have hk : keyLt k p.1 := h1
            exact keyLt_trans hlo hk

/-- A search in a bounded BST finds exactly the stored pairs. -/
theorem bnode_search_eq_some_iff {t : BTree α} {lo hi : Option Key}
    (h : IsBSTB lo hi t) (k : Key) (v : α) :
    bnode_search t k = some v ↔ (k, v) ∈ inorder t := by
  induction t generalizing lo hi with
  | leaf => simp [bnode_search, inorder]
  | node l key val r ihl ihr =>
      obtain ⟨hlo, hhi, hl, hr⟩ := h
      rcases strcmp_trichotomy k key with hc | hc | hc
      · -- k below the root key: search goes left; k cannot be in the middle or right
        have hsearch : bnode_search (BTree.node l key val r) k = bnode_search l k := by
          simp [bnode_search, hc]
        rw [hsearch, ihl hl]
        simp only [inorder, List.mem_append, List.mem_cons]
        constructor
        · exact fun hm => .inl hm
        · rintro (hm | hm | hm)
          · exact hm
          · exfalso
            have hk : k = key := congrArg Prod.fst hm
            subst hk
            simp [strcmp_self] at hc
          · exfalso
            have hb : keyLt key k := (isBSTB_mem_bounds hr (k, v) hm).1
            have hc2 : keyLt k key := hc
            exact keyLt_irrefl k (keyLt_trans hc2 hb)
      · -- equal keys: search stops at the root
        have hk : k = key := strcmp_eq_zero_iff.mp hc
        subst hk
        have hsearch : bnode_search (BTree.node l k val r) k = some val := by
          simp [bnode_search, strcmp_self]
        rw [hsearch]
        simp only [inorder, List.mem_append, List.mem_cons]
        constructor
        · intro hs
          have : val = v := Option.some.inj hs
          subst this
          exact .inr (.inl rfl)
        · rintro (hm | hm | hm)
          · exfalso
            have hb : keyLt k k := (isBSTB_mem_bounds hl (k, v) hm).2
            exact keyLt_irrefl k hb
          · have : v = val := congrArg Prod.snd hm
            subst this
            rfl
          · exfalso
            have hb : keyLt k k := (isBSTB_mem_bounds hr (k, v) hm).1
            exact keyLt_irrefl k hb
      · -- k above the root key: search goes right
        have hlt : keyLt key k := strcmp_asymm2 hc
        have hsearch : bnode_search (BTree.node l key val r) k = bnode_search r k := by
          simp [bnode_search, hc]
        rw [hsearch, ihr hr]
        simp only [inorder, List.mem_append, List.mem_cons]
        constructor
        · exact fun hm => .inr (.inr hm)
        · rintro (hm | hm | hm)
          · exfalso
            have hb : keyLt k key := (isBSTB_mem_bounds hl (k, v) hm).2
            exact keyLt_irrefl k (keyLt_trans hb hlt)
          · exfalso
            have hk : k = key := congrArg Prod.fst hm
            subst hk
            exact keyLt_irrefl k hlt
          · exact hm

/-- A successful `bnode_insert` keeps the bounded BST invariant when the
new key fits the bounds. -/
theorem bnode_insert_isBSTB {t t2 : BTree α} {lo hi : Option Key} {k : Key} {v : α}
    (hins : bnode_insert t k v = some t2) (h : IsBSTB lo hi t)
    (hklo : okLo lo k) (hkhi : okHi k hi) : IsBSTB lo hi t2 := by
  induction t generalizing t2 lo hi with
  | leaf =>
      simp only [bnode_insert, Option.some.injEq] at hins
      subst hins
      exact ⟨hklo, hkhi, trivial, trivial⟩
  | node l key val r ihl ihr =>
      obtain ⟨hlo, hhi, hl, hr⟩ := h
      rcases strcmp_trichotomy k key with hc | hc | hc
      · simp only [bnode_insert, hc] at hins
        norm_num at hins
        obtain ⟨l2, hl2, ht2⟩ := hins
        subst ht2
        exact ⟨hlo, hhi, ihl hl2 hl hklo hc, hr⟩
      · simp [bnode_insert, hc] at hins
      · simp only [bnode_insert, hc] at hins
        norm_num at hins
        obtain ⟨r2, hr2, ht2⟩ := hins
        subst ht2
        exact ⟨hlo, hhi, hl, ihr hr2 hr (strcmp_asymm2 hc) hkhi⟩

/-- A successful insertion adds exactly the new pair (as multisets of
stored pairs). -/
theorem bnode_insert_perm {t t2 : BTree α} {k : Key} {v : α}
    (hins : bnode_insert t k v = some t2) :
    (inorder t2).Perm ((k, v) :: inorder t) := by
  induction t generalizing t2 with
  | leaf =>
      simp only [bnode_insert, Option.some.injEq] at hins
      subst hins
      simp [inorder]
  | node l key val r ihl ihr =>
      rcases strcmp_trichotomy k key with hc | hc | hc
      · simp only [bnode_insert, hc] at hins
        norm_num at hins
        obtain ⟨l2, hl2, ht2⟩ := hins
        subst ht2
        have ihp := ihl hl2
        have hstep : (inorder l2 ++ (key, val) :: inorder r).Perm
            (((k, v) :: inorder l) ++ (key, val) :: inorder r) :=
          ihp.append_right _
        simpa [inorder] using hstep
      · simp [bnode_insert, hc] at hins
      · simp only [bnode_insert, hc] at hins
        norm_num at hins
        obtain ⟨r2, hr2, ht2⟩ := hins
        subst ht2
        have ihp := ihr hr2
        have hstep1 : (inorder l ++ (key, val) :: inorder r2).Perm
            (inorder l ++ (key, val) :: (k, v) :: inorder r) :=
          List.Perm.append_left _ (ihp.cons (key, val))
        have hstep2 : (inorder l ++ (key, val) :: (k, v) :: inorder r).Perm
            ((k, v) :: (inorder l ++ (key, val) :: inorder r)) := by
          have := @List.perm_middle _ (k, v) (inorder l ++ [(key, val)]) (inorder r)
          simpa using this
        simpa [inorder] using hstep1.trans hstep2

/-- If the key is already stored anywhere along the search path,
`bnode_insert` fails (the `EEXIST` case). -/
theorem bnode_insert_of_found {t : BTree α} {k : Key} {w : α}
    (hs : bnode_search t k = some w) (v : α) : bnode_insert t k v = none := by
  induction t with
  | leaf => simp [bnode_search] at hs
  | node l key val r ihl ihr =>
      rcases strcmp_trichotomy k key with hc | hc | hc
      · have hs2 : bnode_search l k = some w := by simpa [bnode_search, hc] using hs
        simp [bnode_insert, hc, ihl hs2]
      · simp [bnode_insert, hc]
      · have hs2 : bnode_search r k = some w := by simpa [bnode_search, hc] using hs
        simp [bnode_insert, hc, ihr hs2]

/-- The in-order listing of a bounded BST is strictly sorted by the
default comparator. -/
theorem inorder_pairwise {t : BTree α} {lo hi : Option Key}
    (h : IsBSTB lo hi t) :
    (inorder t).Pairwise (fun p q => keyLt p.1 q.1) := by
  induction t generalizing lo hi with
  | leaf => simp [inorder]
  | node l key val r ihl ihr =>
      obtain ⟨hlo, hhi, hl, hr⟩ := h
      have hpl := ihl hl
      have hpr := ihr hr
      have hboundl := isBSTB_mem_bounds hl
      have hboundr := isBSTB_mem_bounds hr
      simp only [inorder]
      rw [List.pairwise_append]
      refine ⟨hpl, ?_, ?_⟩
      · rw [List.pairwise_cons]
        refine ⟨?_, hpr⟩
        intro q hq
        exact (hboundr q hq).1
      · intro p hp q hq
        have hpk : keyLt p.1 key := (hboundl p hp).2
        rcases List.mem_cons.mp hq with hq | hq
        · subst hq; exact hpk
        · exact keyLt_trans hpk ((hboundr q hq).1)

theorem firstRes_append (f : Key → α → Int) (xs ys : List (Key × α)) :
    firstRes f (xs ++ ys) =
      (if firstRes f xs ≠ 0 then firstRes f xs else firstRes f ys) := by
  induction xs with
  | nil => simp [firstRes]
  | cons p rest ih =>
      obtain ⟨k, v⟩ := p
      by_cases hz : f k v = 0
      · simpa [firstRes, hz] using ih
      · simp [firstRes, hz]

/-- `bnode_walker` is exactly the first non-zero callback result over the
in-order listing. -/
theorem bnode_walker_eq_firstRes (f : Key → α → Int) (t : BTree α) :
    bnode_walker f t = firstRes f (inorder t) := by
  induction t with
  | leaf => rfl
  | node l k v r ihl ihr =>
      simp only [bnode_walker, inorder, firstRes_append, ihl, ihr]
      by_cases hzl : firstRes f (inorder l) = 0
      · by_cases hzf : f k v = 0
        · simp [firstRes, hzl, hzf]
        · simp [firstRes, hzl, hzf]
      · simp [firstRes, hzl]

theorem firstRes_eq_zero_iff (f : Key → α → Int) (xs : List (Key × α)) :
    firstRes f xs = 0 ↔ ∀ p ∈ xs, f p.1 p.2 = 0 := by
  induction xs with
  | nil => simp [firstRes]
  | cons p rest ih =>
      obtain ⟨k, v⟩ := p
      by_cases hz : f k v = 0
      · simp [firstRes, hz, ih]
      · simp only [firstRes]
        rw [if_pos hz]
        constructor
        · intro h; exact absurd h hz
        · intro h
          exact absurd (h (k, v) (List.mem_cons_self _ _)) hz

theorem btree_foreach_eq_zero_iff (f : Key → α → Int) (t : BTree α) :
    btree_foreach t f = 0 ↔ ∀ p ∈ inorder t, f p.1 p.2 = 0 := by
  rw [btree_foreach, bnode_walker_eq_firstRes, firstRes_eq_zero_iff]

theorem insertAll_isBSTB {items : List (Key × α)} {t t2 : BTree α}
    (h : insertAll t items = some t2) (hbst : IsBST t) : IsBST t2 := by
  induction items generalizing t with
  | nil => simp only [insertAll, Option.some.injEq] at h; exact h ▸ hbst
  | cons p rest ih =>
      obtain ⟨k, v⟩ := p
      simp only [insertAll] at h
      cases hins : bnode_insert t k v with
      | none => rw [hins] at h; cases h
      | some t3 =>
          rw [hins] at h
          exact ih h (bnode_insert_isBSTB hins hbst trivial trivial)

theorem insertAll_perm {items : List (Key × α)} {t t2 : BTree α}
    (h : insertAll t items = some t2) :
    (inorder t2).Perm (items ++ inorder t) := by
  induction items generalizing t with
  | nil =>
      simp only [insertAll, Option.some.injEq] at h
      subst h
      simp
  | cons p rest ih =>
      obtain ⟨k, v⟩ := p
      simp only [insertAll] at h
      cases hins : bnode_insert t k v with
      | none => rw [hins] at h; cases h
      | some t3 =>
          rw [hins] at h
          have h1 := ih h
          have h2 := bnode_insert_perm hins
          have h3 : (rest ++ inorder t3).Perm (rest ++ ((k, v) :: inorder t)) :=
            List.Perm.append_left rest h2
          have h4 : (rest ++ ((k, v) :: inorder t)).Perm ((k, v) :: (rest ++ inorder t)) :=
            List.perm_middle
          simpa using (h1.trans h3).trans h4

/-- A crash-free callback makes `bnode_walkerE` coincide with
`bnode_walker`. -/
theorem bnode_walkerE_pure (g : Key → α → Int) (t : BTree α) :
    bnode_walkerE (fun k v => some (g k v)) t = some (bnode_walker g t) := by
  induction t with
  | leaf => rfl
  | node l k v r ihl ihr =>
      simp only [bnode_walkerE, bnode_walker, ihl, ihr]
      by_cases hzl : bnode_walker g l = 0
      · by_cases hzf : g k v = 0
        · simp [hzl, hzf, ihr]
        · simp [hzl, hzf]
      · simp [hzl]

end BTree

/-- The per-attribute comparison succeeds exactly on a byte-identical
stored value. -/
theorem attr_compare_handler_eq_zero_iff (bt : BTree Attr) (k : Key) (v : Attr) :
    attr_compare_handler bt k v = 0 ↔ BTree.bnode_search bt k = some v := by
  unfold attr_compare_handler
  cases hs : BTree.bnode_search bt k with
  | none => simp
  | some bip =>
      by_cases hlen : v.length = bip.length
      · by_cases hv : v = bip
        · simp [hlen, hv]
        · simp [hlen, hv]
          exact fun he => absurd he.symm hv
      · simp [hlen]
        intro he
        exact absurd (he ▸ rfl) hlen

/-- C1: with the zero-fill policy, `file_copy` is claimed to reproduce
the source bytes exactly for every content and block size, writing the
source's final byte explicitly when a block was elided.  The code instead
always writes a NUL as the final byte whenever any block was elided: with
block size 1 and source bytes `[0, 65]`, the first block is elided and
the trailing fix-up overwrites the final byte 65 with 0, so the
destination reads back `[0, 0]` and differs from the source. -/
theorem claim_C1_zero_fill_roundtrip :
    file_copy true 0 [0, 65] = [0, 0] ∧ file_copy true 0 [0, 65] ≠ [0, 65] := by
  have hc : chunks 0 [0, 65] = [[0], [65]] := by
    simp [chunks]
  have hres : file_copy true 0 [0, 65] = [0, 0] := by
    simp only [file_copy, hc]
    rfl
  exact ⟨hres, by rw [hres]; decide⟩

/-- C2: the spec demands that `digest_init` fail with `Unsupported` when
the build lacks the algorithm and otherwise initialize the algorithm's
context.  Because the C code switches on `dp->type` right after
`memset`ing the struct to zero, it sees `DIGEST_TYPE_NONE` for every tag:
for every non-`INVALID` tag and every build it succeeds with return code
0, state `INIT`, and a context no algorithm ever initialized. -/
theorem claim_C2_digest_init_never_fails (b : Build) (dp : Digest)
    (ty : DigestType) (hty : ty ≠ .invalid) :
    digest_init b dp ty = ({ dtype := ty, state := .sinit, ctx := none }, 0) := by
  simp [digest_init, hty]

theorem claim_C2_witness :
    digest_init ⟨false, false, false, false, false, false, false, false, false⟩
      ⟨.dnone, .snone, none⟩ .sha256 =
      ({ dtype := .sha256, state := .sinit, ctx := none }, 0) :=
  claim_C2_digest_init_never_fails _ _ _ (by decide)

/-- C9: inserting an already-present key fails with `Exists` (-1 /
`EEXIST`), leaves the tree unchanged — the stored value is still what
search returns and the entry count is unchanged — and the rejected key
and value are handed to the disposer. -/
theorem claim_C9_insert_existing (t : BTree α) (k : Key) (v w : α)
    (hfound : BTree.bnode_search t k = some w) :
    BTree.btree_insert t k v = (t, -1, [(k, v)]) ∧
    BTree.bnode_search (BTree.btree_insert t k v).1 k = some w ∧
    BTree.btree_entries (BTree.btree_insert t k v).1 = BTree.btree_entries t := by
  have h := BTree.bnode_insert_of_found hfound v
  refine ⟨?_, ?_, ?_⟩ <;> simp [BTree.btree_insert, h, hfound]

theorem claim_C9_witness :
    BTree.btree_insert (BTree.node .leaf [5] (10 : Int) .leaf) [5] 11 =
      (BTree.node .leaf [5] (10 : Int) .leaf, -1, [([5], 11)]) ∧
    BTree.bnode_search (BTree.btree_insert (BTree.node .leaf [5] (10 : Int) .leaf) [5] 11).1 [5] =
      some 10 ∧
    BTree.btree_entries (BTree.btree_insert (BTree.node .leaf [5] (10 : Int) .leaf) [5] 11).1 =
      BTree.btree_entries (BTree.node .leaf [5] (10 : Int) .leaf) :=
  claim_C9_insert_existing _ [5] 11 10 (by decide)

/-- C8: a map built by any sequence of successful insertions with the
default comparator stores exactly the inserted pairs, lists them in
strictly increasing lexicographic byte order, and `btree_foreach` visits
them in that order, stopping at — and returning — the first non-zero
callback result. -/
theorem claim_C8_ordered_traversal (items : List (Key × α)) (t : BTree α)
    (h : BTree.insertAll BTree.leaf items = some t) :
    ((BTree.inorder t).map Prod.fst).Pairwise keyLt ∧
    (BTree.inorder t).Perm items ∧
    (∀ f : Key → α → Int, BTree.btree_foreach t f = BTree.firstRes f (BTree.inorder t)) := by
  have hbst : BTree.IsBST t := BTree.insertAll_isBSTB h trivial
  refine ⟨?_, ?_, ?_⟩
  · have hp := BTree.inorder_pairwise hbst
    exact List.pairwise_map.mpr hp
  · have hp := BTree.insertAll_perm h
    simpa [BTree.inorder] using hp
  · intro f
    exact BTree.bnode_walker_eq_firstRes f t

theorem testBit_ite_zero (c : Prop) [Decidable c] (x j : Nat) :
    (if c then x else 0).testBit j = (decide c && x.testBit j) := by
  by_cases h : c <;> simp [h]

theorem testBit_ite_zero2 (c : Prop) [Decidable c] (x j : Nat) :
    (if c then 0 else x).testBit j = (!(decide c) && x.testBit j) := by
  by_cases h : c <;> simp [h]

/-- C3: the claim (and the spec's comparator table) says bit 0x00000020
is set on block/character devices iff the device numbers of the nodes
themselves (`st_rdev`) differ.  The code compares `st_dev` — the device
of the filesystem containing the node: two character devices with equal
`rdev` but different containing filesystems get the bit, and two with the
same containing filesystem but different `rdev` do not. -/
theorem claim_C3_rdev :
    (node_compare cfgDev
        (some (nodeOf { statBase with ftype := .chr, dev := 1, rdev := 5 }))
        (some (nodeOf { statBase with ftype := .chr, dev := 2, rdev := 5 })) = some 32 ∧
      (nodeOf { statBase with ftype := .chr, dev := 1, rdev := 5 }).s.rdev =
        (nodeOf { statBase with ftype := .chr, dev := 2, rdev := 5 }).s.rdev) ∧
    (node_compare cfgDev
        (some (nodeOf { statBase with ftype := .chr, dev := 1, rdev := 5 }))
        (some (nodeOf { statBase with ftype := .chr, dev := 1, rdev := 7 })) = some 0 ∧
      (nodeOf { statBase with ftype := .chr, dev := 1, rdev := 5 }).s.rdev ≠
        (nodeOf { statBase with ftype := .chr, dev := 1, rdev := 7 }).s.rdev) := by
  decide

/-- C6: `attr_compare` reports two xattr maps equal exactly when every
source attribute is stored in the destination with a byte-identical
value, and — only under the remove policy — every destination attribute
also exists in the source; with the remove policy off, extra
destination-only attributes do not break equality. -/
theorem claim_C6_attr_compare_iff (remove : Bool) (a b : BTree Attr)
    (ha : BTree.IsBST a) (hb : BTree.IsBST b) :
    attr_compare remove a (some b) = some 0 ↔
      ((∀ k v, BTree.bnode_search a k = some v → BTree.bnode_search b k = some v) ∧
       (remove = true →
          ∀ k v, BTree.bnode_search b k = some v →
            ∃ w, BTree.bnode_search a k = some w)) := by
  have hA : (BTree.bnode_walker (fun k v => attr_compare_handler b k v) a = 0) ↔
      (∀ k v, BTree.bnode_search a k = some v → BTree.bnode_search b k = some v) := by
    rw [show BTree.bnode_walker (fun k v => attr_compare_handler b k v) a =
        BTree.btree_foreach a (fun k v => attr_compare_handler b k v) from rfl]
    rw [BTree.btree_foreach_eq_zero_iff]
    constructor
    · intro h0 k v hs
      exact (attr_compare_handler_eq_zero_iff b k v).mp
        (h0 (k, v) ((BTree.bnode_search_eq_some_iff ha k v).mp hs))
    · intro hok p hp
      exact (attr_compare_handler_eq_zero_iff b p.1 p.2).mpr
        (hok p.1 p.2 ((BTree.bnode_search_eq_some_iff ha p.1 p.2).mpr hp))
  have hB : (BTree.bnode_walker (fun k v => attr_compare_handler a k v) b = 0) ↔
      (∀ k v, BTree.bnode_search b k = some v → BTree.bnode_search a k = some v) := by
    rw [show BTree.bnode_walker (fun k v => attr_compare_handler a k v) b =
        BTree.btree_foreach b (fun k v => attr_compare_handler a k v) from rfl]
    rw [BTree.btree_foreach_eq_zero_iff]
    constructor
    · intro h0 k v hs
      exact (attr_compare_handler_eq_zero_iff a k v).mp
        (h0 (k, v) ((BTree.bnode_search_eq_some_iff hb k v).mp hs))
    · intro hok p hp
      exact (attr_compare_handler_eq_zero_iff a p.1 p.2).mpr
        (hok p.1 p.2 ((BTree.bnode_search_eq_some_iff hb p.1 p.2).mpr hp))
  have hL : attr_compare remove a (some b) = some 0 ↔
      (BTree.bnode_walker (fun k v => attr_compare_handler b k v) a = 0 ∧
       (remove = true →
          BTree.bnode_walker (fun k v => attr_compare_handler a k v) b = 0)) := by
    simp only [attr_compare, BTree.bnode_walkerE_pure]
    by_cases h1 : BTree.bnode_walker (fun k v => attr_compare_handler b k v) a = 0
    · by_cases h2 : BTree.bnode_walker (fun k v => attr_compare_handler a k v) b = 0
      · cases remove <;> simp [h1, h2]
      · cases remove <;> simp [h1, h2]
    · cases remove <;> simp [h1]
  rw [hL, hA]
  constructor
  · rintro ⟨h1, h2⟩
    refine ⟨h1, fun hrem k v hs => ?_⟩
    exact ⟨v, hB.mp (h2 hrem) k v hs⟩
  · rintro ⟨h1, h2⟩
    refine ⟨h1, fun hrem => hB.mpr ?_⟩
    intro k v hs
    obtain ⟨w, hw⟩ := h2 hrem k v hs
    have hbw := h1 k w hw
    rw [hs] at hbw
    have hwv : v = w := Option.some.inj hbw
    subst hwv
    exact hw

theorem claim_C6_witness :
    (attr_compare false (BTree.node .leaf [102] [98] .leaf)
        (some (BTree.node (BTree.node .leaf [101] [1] .leaf) [102] [98] .leaf)) = some 0 ↔
      ((∀ k v, BTree.bnode_search (BTree.node .leaf [102] ([98] : Attr) .leaf) k = some v →
          BTree.bnode_search (BTree.node (BTree.node .leaf [101] [1] .leaf) [102] [98] .leaf) k =
            some v) ∧
       (false = true →
          ∀ k v,
            BTree.bnode_search (BTree.node (BTree.node .leaf [101] ([1] : Attr) .leaf) [102] [98]
              .leaf) k = some v →
            ∃ w, BTree.bnode_search (BTree.node .leaf [102] ([98] : Attr) .leaf) k = some w))) :=
  claim_C6_attr_compare_iff false _ _ (by decide) (by decide)

/-- C7: with the times policy enabled, bit 0x00000100 of the divergence
mask is set exactly when the source mtime is strictly newer than the
destination's at times level 1, and exactly when the two mtimes differ at
all at level 2 or above (seconds granularity, as the code compares
`st_mtime`). -/
theorem claim_C7_times_bit (cfg : Config) (a b : Node) (d : Int)
    (ht : 0 < cfg.times)
    (h : node_compare cfg (some a) (some b) = some d) :
    (cfg.times = 1 → ((d.toNat.testBit 8 = true) ↔ a.s.mtimeSec > b.s.mtimeSec)) ∧
    (2 ≤ cfg.times → ((d.toNat.testBit 8 = true) ↔ a.s.mtimeSec ≠ b.s.mtimeSec)) := by
  have e1 : Nat.testBit 0x00000001 8 = false := by decide
  have e2 : Nat.testBit 0x00000002 8 = false := by decide
  have e3 : Nat.testBit 0x00000004 8 = false := by decide
  have e4 : Nat.testBit 0x00000010 8 = false := by decide
  have e5 : Nat.testBit 0x00000020 8 = false := by decide
  have e6 : Nat.testBit 0x00000100 8 = true := by decide
  have e7 : Nat.testBit 0x00001000 8 = false := by decide
  have e8 : Nat.testBit 0x00010000 8 = false := by decide
  have e9 : Nat.testBit 0x00020000 8 = false := by decide
  have e10 : Nat.testBit 0x00100000 8 = false := by decide
  have e11 : Nat.testBit 0x00200000 8 = false := by decide
  have e12 : Nat.testBit 0x00400000 8 = false := by decide
  have e13 : Nat.testBit 0x10000000 8 = false := by decide
  have e14 : Nat.testBit 0x20000000 8 = false := by decide
  have e0 : Nat.testBit 0 8 = false := by decide
  simp only [node_compare] at h
  split at h
  · exact absurd h (by simp)
  · rename_i ds hds
    split at h
    · exact absurd h (by simp)
    · rename_i du hdu
      have hds8 : ds.testBit 8 = false := by
        by_cases hat : cfg.attrs
        · rw [if_pos hat] at hds
          cases hx : a.xSys with
          | none =>
              rw [hx] at hds
              have : (0 : Nat) = ds := Option.some.inj hds
              rw [← this]
              exact e0
          | some sa =>
              rw [hx] at hds
              obtain ⟨rc, _, hmap⟩ := Option.map_eq_some'.mp hds
              rw [← hmap]
              by_cases hrc : rc ≠ 0
              · simp only [if_pos hrc]; decide
              · simp only [if_neg hrc]; decide
        · rw [if_neg hat] at hds
          have : (0 : Nat) = ds := Option.some.inj hds
          rw [← this]
          exact e0
      have hdu8 : du.testBit 8 = false := by
        by_cases hat : cfg.attrs
        · rw [if_pos hat] at hdu
          cases hx : a.xUsr with
          | none =>
              rw [hx] at hdu
              have : (0 : Nat) = du := Option.some.inj hdu
              rw [← this]
              exact e0
          | some ua =>
              rw [hx] at hdu
              obtain ⟨rc, _, hmap⟩ := Option.map_eq_some'.mp hdu
              rw [← hmap]
              by_cases hrc : rc ≠ 0
              · simp only [if_pos hrc]; decide
              · simp only [if_neg hrc]; decide
        · rw [if_neg hat] at hdu
          have : (0 : Nat) = du := Option.some.inj hdu
          rw [← this]
          exact e0
      have hd := Option.some.inj h
      subst hd
      constructor
      · intro htime
        simp [Int.toNat_ofNat, Nat.testBit_lor, testBit_ite_zero, testBit_ite_zero2,
          e1, e2, e3, e4, e5, e6, e7, e8, e9, e10, e11, e12, e13, e14,
          hds8, hdu8, htime]
      · intro htime
        have hnl : ¬ cfg.times < 2 := by omega
        simp [Int.toNat_ofNat, Nat.testBit_lor, testBit_ite_zero, testBit_ite_zero2,
          e1, e2, e3, e4, e5, e6, e7, e8, e9, e10, e11, e12, e13, e14,
          hds8, hdu8, hnl, ht]

theorem claim_C7_witness :
    (0 < ({ cfgDev with times := 2 } : Config).times) ∧
    (node_compare { cfgDev with times := 2 }
        (some (nodeOf { statBase with mtimeSec := 5 }))
        (some (nodeOf { statBase with mtimeSec := 3 })) = some 256) ∧
    ((({ cfgDev with times := 2 } : Config).times = 1 →
        (((256 : Int).toNat.testBit 8 = true) ↔
          (nodeOf { statBase with mtimeSec := 5 }).s.mtimeSec >
            (nodeOf { statBase with mtimeSec := 3 }).s.mtimeSec)) ∧
     (2 ≤ ({ cfgDev with times := 2 } : Config).times →
        (((256 : Int).toNat.testBit 8 = true) ↔
          (nodeOf { statBase with mtimeSec := 5 }).s.mtimeSec ≠
            (nodeOf { statBase with mtimeSec := 3 }).s.mtimeSec))) :=
  ⟨by decide, by decide,
    claim_C7_times_bit { cfgDev with times := 2 } _ _ 256 (by decide) (by decide)⟩

theorem claim_C8_witness :
    ((BTree.inorder (BTree.node (BTree.node .leaf [97] (1 : Int) .leaf) [98] 0
        (BTree.node .leaf [99] 2 .leaf))).map Prod.fst).Pairwise keyLt ∧
    (BTree.inorder (BTree.node (BTree.node .leaf [97] (1 : Int) .leaf) [98] 0
        (BTree.node .leaf [99] 2 .leaf))).Perm [([98], 0), ([97], 1), ([99], 2)] ∧
    (∀ f : Key → Int → Int,
      BTree.btree_foreach (BTree.node (BTree.node .leaf [97] (1 : Int) .leaf) [98] 0
        (BTree.node .leaf [99] 2 .leaf)) f =
      BTree.firstRes f (BTree.inorder (BTree.node (BTree.node .leaf [97] (1 : Int) .leaf) [98] 0
        (BTree.node .leaf [99] 2 .leaf)))) :=
  claim_C8_ordered_traversal [([98], 0), ([97], 1), ([99], 2)] _ (by decide)

theorem ev_isChown_not_isChmod {e : Ev} (h : e.isChown = true) : e.isChmod = false := by
  cases e <;> simp [Ev.isChown, Ev.isChmod] at h ⊢

theorem ev_isChmod_not_isChown {e : Ev} (h : e.isChmod = true) : e.isChown = false := by
  cases e <;> simp [Ev.isChown, Ev.isChmod] at h ⊢

/-- The ownership step appends at most one `lchown` event, and only when
the caller owns the source uid or is root. -/
theorem node_update_owner_tr (ownerF ignoreF : Bool) (uidC euidC : Nat)
    (res : Int) (errnoV : Nat) (src : Node) (dst : Option Node) (st : NUState) :
    ∃ Δ, (node_update_owner ownerF ignoreF uidC euidC res errnoV src dst st).tr =
        st.tr ++ Δ ∧
      (∀ e ∈ Δ, e.isChown = true) ∧
      (Δ ≠ [] → (src.s.uid = uidC ∨ euidC = 0)) := by
  unfold node_update_owner nustep
  split
  · split
    · split
      · split
        · split
          · split
            · exact ⟨[Ev.lchown src.s.uid src.s.gid], by simp,
                by simp [Ev.isChown], fun _ => by assumption⟩
            · exact ⟨[Ev.lchown src.s.uid src.s.gid], by simp,
                by simp [Ev.isChown], fun _ => by assumption⟩
          · exact ⟨[Ev.lchown src.s.uid src.s.gid], by simp,
              by simp [Ev.isChown], fun _ => by assumption⟩
        · exact ⟨[], by simp, by simp, by simp⟩
      · exact ⟨[], by simp, by simp, by simp⟩
    · exact ⟨[], by simp, by simp, by simp⟩
  · exact ⟨[], by simp, by simp, by simp⟩

/-- The mode step appends at most one `lchmod` event. -/
theorem node_update_perms_tr (permsF ignoreF : Bool) (res : Int)
    (src : Node) (dst : Option Node) (st : NUState) :
    ∃ Δ, (node_update_perms permsF ignoreF res src dst st).tr = st.tr ++ Δ ∧
      ∀ e ∈ Δ, e.isChmod = true := by
  unfold node_update_perms nustep
  split
  · split
    · split
      · split
        · split
          · exact ⟨[Ev.lchmod src.s.ftype src.s.perm], by simp, by simp [Ev.isChmod]⟩
          · exact ⟨[Ev.lchmod src.s.ftype src.s.perm], by simp, by simp [Ev.isChmod]⟩
        · exact ⟨[Ev.lchmod src.s.ftype src.s.perm], by simp, by simp [Ev.isChmod]⟩
      · exact ⟨[], by simp, by simp⟩
    · exact ⟨[], by simp, by simp⟩
  · exact ⟨[], by simp, by simp⟩

/-- Events of a recorded walk satisfy any property its callback's events
satisfy. -/
theorem bnode_walkerTr_events {α : Type} {f : Key → α → Int × List Ev} {P : Ev → Prop}
    (hf : ∀ k v, ∀ e ∈ (f k v).2, P e) (t : BTree α) :
    ∀ e ∈ (BTree.bnode_walkerTr f t).2, P e := by
  induction t with
  | leaf => intro e he; simp [BTree.bnode_walkerTr] at he
  | node l k v r ihl ihr =>
      intro e he
      simp only [BTree.bnode_walkerTr] at he
      split at he
      · exact ihl e he
      · split at he
        · simp only [List.mem_append] at he
          rcases he with he | he
          · exact ihl e he
          · exact hf k v e he
        · simp only [List.mem_append] at he
          rcases he with (he | he) | he
          · exact ihl e he
          · exact hf k v e he
          · exact ihr e he

/-- Neither chown nor chmod: the property every non-owner, non-mode step
preserves. -/
def notOwnerMode (e : Ev) : Prop := e.isChown = false ∧ e.isChmod = false

theorem attr_update_events (forceF : Bool) (setRes : Nat → Key → Int) (ns : Nat)
    (dstAttrs : Option (BTree Attr)) (k : Key) (v : Attr) :
    ∀ e ∈ (attr_update forceF setRes ns dstAttrs k v).2, notOwnerMode e := by
  intro e he
  unfold attr_update at he
  split at he
  · split at he
    · simp at he
      subst he
      exact ⟨rfl, rfl⟩
    · split at he
      · split at he
        · simp at he
        · simp at he
          subst he
          exact ⟨rfl, rfl⟩
      · simp at he
        subst he
        exact ⟨rfl, rfl⟩
  · simp at he
    subst he
    exact ⟨rfl, rfl⟩

theorem attr_remove_events (delRes : Nat → Key → Int) (ns : Nat)
    (srcAttrs : Option (BTree Attr)) (k : Key) (v : Attr) :
    ∀ e ∈ (attr_remove delRes ns srcAttrs k v).2, notOwnerMode e := by
  intro e he
  unfold attr_remove at he
  split at he
  · split at he
    · simp at he
    · simp at he
      subst he
      exact ⟨rfl, rfl⟩
  · simp at he
    subst he
    exact ⟨rfl, rfl⟩

theorem btree_foreachTr_opt_events {α : Type} {f : Key → α → Int × List Ev}
    {P : Ev → Prop} (hf : ∀ k v, ∀ e ∈ (f k v).2, P e) (t : Option (BTree α)) :
    ∀ e ∈ (BTree.btree_foreachTr_opt t f).2, P e := by
  cases t with
  | none => intro e he; simp [BTree.btree_foreachTr_opt] at he
  | some t => exact bnode_walkerTr_events hf t

theorem attrs_ns_sys_events (forceF removeF : Bool)
    (setRes delRes : Nat → Key → Int) (src : Node) (dst : Option Node)
    (tr : List Ev) (h : attrs_ns_sys forceF removeF setRes delRes src dst = some tr) :
    ∀ e ∈ tr, notOwnerMode e := by
  unfold attrs_ns_sys at h
  split at h
  · simp only [Option.some.injEq] at h
    subst h
    simp
  · split at h
    · cases h
    · rename_i d
      simp only [Option.some.injEq] at h
      subst h
      intro e he
      simp only [List.mem_append] at he
      rcases he with he | he
      · exact bnode_walkerTr_events
          (fun k v => attr_update_events forceF setRes NS_SYSTEM d.xSys k v) _ e he
      · split at he
        · exact btree_foreachTr_opt_events
            (fun k v => attr_remove_events delRes NS_SYSTEM _ k v) _ e he
        · simp at he

theorem attrs_ns_usr_events (forceF removeF : Bool)
    (setRes delRes : Nat → Key → Int) (src : Node) (dst : Option Node)
    (tr : List Ev) (h : attrs_ns_usr forceF removeF setRes delRes src dst = some tr) :
    ∀ e ∈ tr, notOwnerMode e := by
  unfold attrs_ns_usr at h
  split at h
  · simp only [Option.some.injEq] at h
    subst h
    simp
  · split at h
    · cases h
    · rename_i d
      simp only [Option.some.injEq] at h
      subst h
      intro e he
      simp only [List.mem_append] at he
      rcases he with he | he
      · exact bnode_walkerTr_events
          (fun k v => attr_update_events forceF setRes NS_USER d.xUsr k v) _ e he
      · split at he
        · exact btree_foreachTr_opt_events
            (fun k v => attr_remove_events delRes NS_USER _ k v) _ e he
        · simp at he

/-- The xattr step appends only xattr events. -/
theorem node_update_attrs_tr (attrsF forceF removeF : Bool)
    (setRes delRes : Nat → Key → Int) (src : Node) (dst : Option Node)
    (st : NUState) :
    ∃ Δ, (node_update_attrs attrsF forceF removeF setRes delRes src dst st).tr =
        st.tr ++ Δ ∧ ∀ e ∈ Δ, notOwnerMode e := by
  unfold node_update_attrs nustep
  split
  · split
    · split
      · exact ⟨[], by simp, by simp⟩
      · rename_i trsys hsys
        split
        · exact ⟨trsys, by simp,
            attrs_ns_sys_events forceF removeF setRes delRes src dst trsys hsys⟩
        · rename_i trusr husr
          refine ⟨trsys ++ trusr, by simp, ?_⟩
          intro e he
          rcases List.mem_append.mp he with he | he
          · exact attrs_ns_sys_events forceF removeF setRes delRes src dst trsys hsys e he
          · exact attrs_ns_usr_events forceF removeF setRes delRes src dst trusr husr e he
    · exact ⟨[], by simp, by simp⟩
  · exact ⟨[], by simp, by simp⟩

/-- A single ACL kind appends at most one `aclSet` event. -/
theorem node_update_acl1_tr (ignoreF : Bool) (srcAcl : Option (List Nat))
    (dstAcl : Node → Option (List Nat)) (kind : Nat) (res : Int)
    (dst : Option Node) (st : NUState) :
    ∃ Δ, (node_update_acl1 ignoreF srcAcl dstAcl kind res dst st).tr =
        st.tr ++ Δ ∧ ∀ e ∈ Δ, notOwnerMode e := by
  unfold node_update_acl1 nustep
  split
  · split
    · exact ⟨[], by simp, by simp⟩
    · split
      · exact ⟨[], by simp, by simp⟩
      · split
        · split
          · split
            · exact ⟨[Ev.aclSet kind], by simp, by simp [notOwnerMode, Ev.isChown, Ev.isChmod]⟩
            · exact ⟨[Ev.aclSet kind], by simp, by simp [notOwnerMode, Ev.isChown, Ev.isChmod]⟩
          · exact ⟨[Ev.aclSet kind], by simp, by simp [notOwnerMode, Ev.isChown, Ev.isChmod]⟩
        · exact ⟨[], by simp, by simp⟩
  · exact ⟨[], by simp, by simp⟩

/-- The ACL step appends only `aclSet` events. -/
theorem node_update_acls_tr (aclsF ignoreF : Bool) (resNfs resAcc resDef : Int)
    (src : Node) (dst : Option Node) (st : NUState) :
    ∃ Δ, (node_update_acls aclsF ignoreF resNfs resAcc resDef src dst st).tr =
        st.tr ++ Δ ∧ ∀ e ∈ Δ, notOwnerMode e := by
  unfold node_update_acls
  split
  · obtain ⟨Δ1, h1, hp1⟩ := node_update_acl1_tr ignoreF src.aNfs (fun d => d.aNfs) 0 resNfs dst st
    obtain ⟨Δ2, h2, hp2⟩ := node_update_acl1_tr ignoreF src.aAcc (fun d => d.aAcc) 1 resAcc dst
      (node_update_acl1 ignoreF src.aNfs (fun d => d.aNfs) 0 resNfs dst st)
    obtain ⟨Δ3, h3, hp3⟩ := node_update_acl1_tr ignoreF src.aDef (fun d => d.aDef) 2 resDef dst
      (node_update_acl1 ignoreF src.aAcc (fun d => d.aAcc) 1 resAcc dst
        (node_update_acl1 ignoreF src.aNfs (fun d => d.aNfs) 0 resNfs dst st))
    refine ⟨Δ1 ++ Δ2 ++ Δ3, ?_, ?_⟩
    · rw [h3, h2, h1]
      simp [List.append_assoc]
    · intro e he
      rcases List.mem_append.mp he with he | he
      · rcases List.mem_append.mp he with he | he
        · exact hp1 e he
        · exact hp2 e he
      · exact hp3 e he
  · exact ⟨[], by simp, by simp⟩

/-- The times step appends at most one `utimensat` event. -/
theorem node_update_times_tr (timesL : Nat) (ignoreF : Bool) (res : Int)
    (src : Node) (dst : Option Node) (st : NUState) :
    ∃ Δ, (node_update_times timesL ignoreF res src dst st).tr = st.tr ++ Δ ∧
      ∀ e ∈ Δ, notOwnerMode e := by
  unfold node_update_times nustep
  split
  · split
    · split
      · split
        · exact ⟨[Ev.utimensat src.s.atimeSec src.s.atimeNsec src.s.mtimeSec src.s.mtimeNsec],
            by simp, by simp [notOwnerMode, Ev.isChown, Ev.isChmod]⟩
        · exact ⟨[Ev.utimensat src.s.atimeSec src.s.atimeNsec src.s.mtimeSec src.s.mtimeNsec],
            by simp, by simp [notOwnerMode, Ev.isChown, Ev.isChmod]⟩
      · exact ⟨[], by simp, by simp⟩
    · exact ⟨[], by simp, by simp⟩
  · exact ⟨[], by simp, by simp⟩

/-- The flags step appends at most the two `lchflags` events. -/
theorem node_update_flags_tr (flagsL : Nat) (ignoreF : Bool) (resDst resSrc : Int)
    (src : Node) (dst : Option Node) (st : NUState) :
    ∃ Δ, (node_update_flags flagsL ignoreF resDst resSrc src dst st).tr =
        st.tr ++ Δ ∧ ∀ e ∈ Δ, notOwnerMode e := by
  unfold node_update_flags nustep
  split
  · split
    · -- the two sequential sub-steps
      split
      · split
        · -- dst flags differ, resDst < 0: early return, inner nustep skips
          split
          all_goals
            exact ⟨[Ev.lchflagsDst src.s.flags], by simp,
              by simp [notOwnerMode, Ev.isChown, Ev.isChmod]⟩
        · -- dst flags applied, continue to the archive sub-step
          split
          · split
            · split
              · exact ⟨[Ev.lchflagsDst src.s.flags,
                    Ev.lchflagsSrc (flagsSansArchive src.s.flags)], by simp,
                  by simp [notOwnerMode, Ev.isChown, Ev.isChmod]⟩
              · exact ⟨[Ev.lchflagsDst src.s.flags,
                    Ev.lchflagsSrc (flagsSansArchive src.s.flags)], by simp,
                  by simp [notOwnerMode, Ev.isChown, Ev.isChmod]⟩
            · exact ⟨[Ev.lchflagsDst src.s.flags,
                  Ev.lchflagsSrc (flagsSansArchive src.s.flags)], by simp,
                by simp [notOwnerMode, Ev.isChown, Ev.isChmod]⟩
          · exact ⟨[Ev.lchflagsDst src.s.flags], by simp,
              by simp [notOwnerMode, Ev.isChown, Ev.isChmod]⟩
      · -- dst flags equal: only the archive sub-step can run
        split
        · split
          · split
            · exact ⟨[Ev.lchflagsSrc (flagsSansArchive src.s.flags)], by simp,
                by simp [notOwnerMode, Ev.isChown, Ev.isChmod]⟩
            · exact ⟨[Ev.lchflagsSrc (flagsSansArchive src.s.flags)], by simp,
                by simp [notOwnerMode, Ev.isChown, Ev.isChmod]⟩
          · exact ⟨[Ev.lchflagsSrc (flagsSansArchive src.s.flags)], by simp,
              by simp [notOwnerMode, Ev.isChown, Ev.isChmod]⟩
        · exact ⟨[], by simp, by simp⟩
    · exact ⟨[], by simp, by simp⟩
  · exact ⟨[], by simp, by simp⟩

/-- The full writer trace splits into chown events, then chmod events,
then events that are neither. -/
theorem node_update_tr_decomp (cfg : Config) (w : World) (src : Node)
    (dst : Option Node) :
    ∃ Δo Δp Δr, (node_update cfg w src dst).tr = Δo ++ (Δp ++ Δr) ∧
      (∀ e ∈ Δo, e.isChown = true) ∧
      (∀ e ∈ Δp, e.isChmod = true) ∧
      (∀ e ∈ Δr, notOwnerMode e) ∧
      (Δo ≠ [] → (src.s.uid = cfg.uid ∨ cfg.euid = 0)) := by
  obtain ⟨Δo, ho, hpo, hgo⟩ := node_update_owner_tr cfg.owner cfg.ignore cfg.uid cfg.euid
    w.lchownRes w.lchownErrno src dst ⟨[], .cont 0⟩
  obtain ⟨Δp, hp, hpp⟩ := node_update_perms_tr cfg.perms cfg.ignore w.lchmodRes src dst _
  obtain ⟨Δa, ha2, hpa⟩ := node_update_attrs_tr cfg.attrs cfg.force cfg.remove
    w.xattrSetRes w.xattrDelRes src dst _
  obtain ⟨Δc, hc2, hpc⟩ := node_update_acls_tr cfg.acls cfg.ignore
    w.aclSetNfsRes w.aclSetAccRes w.aclSetDefRes src dst _
  obtain ⟨Δt, ht2, hpt⟩ := node_update_times_tr cfg.times cfg.ignore w.utimensatRes src dst _
  obtain ⟨Δf, hf2, hpf⟩ := node_update_flags_tr cfg.flags cfg.ignore
    w.lchflagsDstRes w.lchflagsSrcRes src dst _
  refine ⟨Δo, Δp, Δa ++ Δc ++ Δt ++ Δf, ?_, hpo, hpp, ?_, hgo⟩
  · rw [node_update, hf2, ht2, hc2, ha2, hp, ho]
    simp [List.append_assoc]
  · intro e he
    rcases List.mem_append.mp he with he | he
    · rcases List.mem_append.mp he with he | he
      · rcases List.mem_append.mp he with he | he
        · exact hpa e he
        · exact hpc e he
      · exact hpt e he
    · exact hpf e he

/-- If an element occurrence is not in the first part of a split list,
the tail after it is a suffix of the second part. -/
theorem suffix_of_mem_right {α : Type} {A B l₁ l₂ : List α} {e : α}
    (h : A ++ B = l₁ ++ e :: l₂) (he : e ∉ A) : l₂ <:+ B := by
  induction A generalizing l₁ with
  | nil =>
      simp only [List.nil_append] at h
      exact ⟨l₁ ++ [e], by simp [h]⟩
  | cons a A ih =>
      cases l₁ with
      | nil =>
          simp only [List.cons_append, List.nil_append] at h
          exact absurd (List.mem_cons_self a A) (by
            rw [List.cons_eq_cons] at h
            exact h.1 ▸ he)
      | cons b l₁ =>
          simp only [List.cons_append, List.cons_eq_cons] at h
          exact ih h.2 (fun hm => he (List.mem_cons_of_mem a hm))

/-- C4: in every execution of `node_update` over every syscall oracle,
every `lchown` precedes every `lchmod`; `lchown` is attempted only when
the caller is root or owns the source uid; and an `EPERM` failure of
`lchown` is silently tolerated — the run is identical to one where
`lchown` succeeded. -/
theorem claim_C4_owner_before_mode (cfg : Config) (w : World) (src : Node)
    (dst : Option Node) :
    (∀ l₁ e l₂, (node_update cfg w src dst).tr = l₁ ++ e :: l₂ →
        e.isChmod = true → ∀ e2 ∈ l₂, e2.isChown = false) ∧
    ((∃ e ∈ (node_update cfg w src dst).tr, e.isChown = true) →
        (src.s.uid = cfg.uid ∨ cfg.euid = 0)) ∧
    (w.lchownRes < 0 → w.lchownErrno = EPERM →
        node_update cfg w src dst =
          node_update cfg { w with lchownRes := 0, lchownErrno := 0 } src dst) := by
  obtain ⟨Δo, Δp, Δr, htr, hpo, hpp, hpr, hgo⟩ := node_update_tr_decomp cfg w src dst
  refine ⟨?_, ?_, ?_⟩
  · intro l₁ e l₂ hsplit hchmod e2 he2
    rw [htr] at hsplit
    have heno : e ∉ Δo := by
      intro hm
      have := hpo e hm
      rw [ev_isChown_not_isChmod this] at hchmod
      cases hchmod
    have hsuf : l₂ <:+ Δp ++ Δr := suffix_of_mem_right hsplit heno
    have hm2 : e2 ∈ Δp ++ Δr := hsuf.subset he2
    rcases List.mem_append.mp hm2 with hm2 | hm2
    · exact ev_isChmod_not_isChown (hpp e2 hm2)
    · exact (hpr e2 hm2).1
  · rintro ⟨e, he, hchown⟩
    apply hgo
    intro hnil
    subst hnil
    rw [htr] at he
    simp only [List.nil_append, List.mem_append] at he
    rcases he with he | he
    · rw [ev_isChmod_not_isChown (hpp e he)] at hchown
      cases hchown
    · rw [(hpr e he).1] at hchown
      cases hchown
  · intro hres herrno
    obtain ⟨a1, a2, a3, a4, a5, a6, a7, a8, a9, a10, a11⟩ := w
    simp only at hres herrno
    subst herrno
    have howner : node_update_owner cfg.owner cfg.ignore cfg.uid cfg.euid a1 EPERM src dst
        ⟨[], .cont 0⟩ =
        node_update_owner cfg.owner cfg.ignore cfg.uid cfg.euid 0 0 src dst ⟨[], .cont 0⟩ := by
      unfold node_update_owner nustep
      norm_num
    unfold node_update
    dsimp only
    rw [howner]

theorem claim_C4_witness :
    (∀ l₁ e l₂,
        (node_update { cfgDev with owner := true, perms := true } worldOk
            (nodeOf statBase) none).tr = l₁ ++ e :: l₂ →
        e.isChmod = true → ∀ e2 ∈ l₂, e2.isChown = false) ∧
    ((∃ e ∈ (node_update { cfgDev with owner := true, perms := true } worldOk
          (nodeOf statBase) none).tr, e.isChown = true) →
        ((nodeOf statBase).s.uid = ({ cfgDev with owner := true, perms := true } : Config).uid ∨
          ({ cfgDev with owner := true, perms := true } : Config).euid = 0)) ∧
    (worldOk.lchownRes < 0 → worldOk.lchownErrno = EPERM →
        node_update { cfgDev with owner := true, perms := true } worldOk
            (nodeOf statBase) none =
          node_update { cfgDev with owner := true, perms := true }
            { worldOk with lchownRes := 0, lchownErrno := 0 } (nodeOf statBase) none) :=
  claim_C4_owner_before_mode { cfgDev with owner := true, perms := true } worldOk
    (nodeOf statBase) none

/-- C5: with recursion enabled, in both the destination-missing branch
and the non-directory-to-directory type-change branch of the driver, the
recursive descent into the source directory completes before the final
`node_update` on that directory: no recursion event follows a
`node_update` event, and whenever `node_update` runs, a completed
recursion precedes it in the trace. -/
theorem claim_C5_recurse_before_update (cfg : Config) (dw : DWorld) (src : Node)
    (dst : Option Node) (hrec : cfg.recurse = true) (hdir : src.s.ftype = FType.dir)
    (hbranch : dst = none ∨ ∃ d, dst = some d ∧ d.s.ftype ≠ FType.dir) :
    noRecurseAfterUpdate (check_new_or_updated cfg dw src dst).1 = true ∧
    (Ev.nodeUpd ∈ (check_new_or_updated cfg dw src dst).1 →
      Ev.recurse ∈ (check_new_or_updated cfg dw src dst).1.takeWhile
        (fun e => e != Ev.nodeUpd)) := by
  rcases hbranch with hb | ⟨d, hb, hd⟩
  · subst hb
    simp only [check_new_or_updated, create_new, hdir, hrec]
    repeat' split
    all_goals dsimp only
    all_goals (try decide)
    all_goals (try simp_all)
  · subst hb
    have hne : src.s.ftype ≠ d.s.ftype := by
      rw [hdir]
      exact fun he => hd he.symm
    simp only [check_new_or_updated, hrec]
    rw [if_pos hne, if_pos hdir]
    repeat' split
    all_goals dsimp only
    all_goals (try decide)
    all_goals (try simp_all)

theorem claim_C5_witness :
    noRecurseAfterUpdate (check_new_or_updated { cfgDev with recurse := true } dworldOk
        (nodeOf { statBase with ftype := .dir }) none).1 = true ∧
    (Ev.nodeUpd ∈ (check_new_or_updated { cfgDev with recurse := true } dworldOk
        (nodeOf { statBase with ftype := .dir }) none).1 →
      Ev.recurse ∈ (check_new_or_updated { cfgDev with recurse := true } dworldOk
        (nodeOf { statBase with ftype := .dir }) none).1.takeWhile
          (fun e => e != Ev.nodeUpd)) :=
  claim_C5_recurse_before_update { cfgDev with recurse := true } dworldOk
    (nodeOf { statBase with ftype := .dir }) none rfl rfl (.inl rfl)

/-- C10: the claim says every policy-gated step of `node_update` checks
for an absent destination node before reading its fields.  The xattr and
ACL steps do not: with a NULL destination node (exactly what the driver
passes after creating a new object) and a source carrying xattr maps or
ACLs, the C code dereferences `dst_nip->x.sys` / `dst_nip->x.usr` /
`dst_nip->a.*` — the embedding crashes. -/
theorem claim_C10_null_deref :
    (node_update { cfgDev with attrs := true } worldOk
        { nodeOf statBase with xSys := some .leaf } none).flow = .crash ∧
    (node_update { cfgDev with acls := true } worldOk
        { nodeOf statBase with aNfs := some [] } none).flow = .crash := by
  constructor <;> rfl

end PC
